import Mathlib

/-!
Verification of the `@simplestack/store` reactive state container
(`src/index.ts`, feature-complete variant: variadic `select` paths,
`getInitial`, per-subscriber previous-value slots).

The JavaScript heap is shallowly embedded as a tree of values in which
every structured node (object or array) carries an identity tag: two
structured values are reference-equal (`Object.is`) exactly when their
tags coincide, and cloning allocates a fresh tag.  Allocation is made
explicit by threading a fresh-tag counter through every operation that
clones.  Primitives are compared by value, which is what `Object.is`
does on them (numbers are modelled as integers; the claims under study
involve no NaN or signed-zero arithmetic).
-/

/-- A property key: a string key of a plain object, or an array index.
JavaScript's coercion of numeric keys to strings is not needed by any
claim, so the two kinds are kept distinct. -/
inductive Key where
  | str (s : String)
  | idx (n : Nat)
deriving DecidableEq, Repr

/-- The primitive state values recognised by `isStatePrimitive` in the
source: string, number, boolean, `null` and `undefined`. -/
inductive Prim where
  | str (s : String)
  | num (n : Int)
  | bool (b : Bool)
  | null
  | undefP
deriving DecidableEq, Repr

/-- A JavaScript state value: a primitive, or a structured node (plain
object / array) carrying an identity tag and its shallow contents. -/
inductive SVal where
  | prim (p : Prim)
  | obj (tag : Nat) (entries : List (Key × SVal))
  | arr (tag : Nat) (elems : List SVal)
deriving Repr

mutual

/-- Decidable structural equality for `SVal` (tags included). -/
def SVal.beq : SVal → SVal → Bool
  | .prim a, .prim b => a == b
  | .obj t es, .obj t' es' => t == t' && SVal.beqEntries es es'
  | .arr t xs, .arr t' xs' => t == t' && SVal.beqList xs xs'
  | _, _ => false

def SVal.beqEntries : List (Key × SVal) → List (Key × SVal) → Bool
  | [], [] => true
  | (k, v) :: rest, (k', v') :: rest' =>
      k == k' && SVal.beq v v' && SVal.beqEntries rest rest'
  | _, _ => false

def SVal.beqList : List SVal → List SVal → Bool
  | [], [] => true
  | v :: rest, v' :: rest' => SVal.beq v v' && SVal.beqList rest rest'
  | _, _ => false

end

mutual

theorem SVal.beq_iff : ∀ a b : SVal, SVal.beq a b = true ↔ a = b
  | .prim a, .prim b => by
      simp [SVal.beq, beq_iff_eq]
  | .prim _, .obj _ _ => by simp [SVal.beq]
  | .prim _, .arr _ _ => by simp [SVal.beq]
  | .obj _ _, .prim _ => by simp [SVal.beq]
  | .obj t es, .obj t' es' => by
      simp [SVal.beq, SVal.beqEntries_iff es es', beq_iff_eq]
  | .obj _ _, .arr _ _ => by simp [SVal.beq]
  | .arr _ _, .prim _ => by simp [SVal.beq]
  | .arr _ _, .obj _ _ => by simp [SVal.beq]
  | .arr t xs, .arr t' xs' => by
      simp [SVal.beq, SVal.beqList_iff xs xs', beq_iff_eq]

theorem SVal.beqEntries_iff : ∀ a b : List (Key × SVal),
    SVal.beqEntries a b = true ↔ a = b
  | [], [] => by simp [SVal.beqEntries]
  | [], _ :: _ => by simp [SVal.beqEntries]
  | _ :: _, [] => by simp [SVal.beqEntries]
  | (k, v) :: rest, (k', v') :: rest' => by
      simp [SVal.beqEntries, SVal.beq_iff v v', SVal.beqEntries_iff rest rest',
        beq_iff_eq, and_assoc]

theorem SVal.beqList_iff : ∀ a b : List SVal,
    SVal.beqList a b = true ↔ a = b
  | [], [] => by simp [SVal.beqList]
  | [], _ :: _ => by simp [SVal.beqList]
  | _ :: _, [] => by simp [SVal.beqList]
  | v :: rest, v' :: rest' => by
      simp [SVal.beqList, SVal.beq_iff v v', SVal.beqList_iff rest rest']

end

instance : DecidableEq SVal := fun a b =>
  decidable_of_iff (SVal.beq a b = true) (SVal.beq_iff a b)

/-- `isStatePrimitive` from the source: true on string, number, boolean,
`null` and `undefined`; false on objects and arrays. -/
def isStatePrimitive : SVal → Bool
  | .prim _ => true
  | .obj _ _ => false
  | .arr _ _ => false

/-- `Array.isArray`. -/
def isArrayVal : SVal → Bool
  | .arr _ _ => true
  | _ => false

/-- The JS `undefined` value. -/
def undefV : SVal := .prim .undefP

/-- First-match association-list lookup; a missing property reads as
`undefined`, as in JavaScript. -/
def lookupEntry : List (Key × SVal) → Key → SVal
  | [], _ => undefV
  | (k', v) :: rest, k => if k' = k then v else lookupEntry rest k

/-- `Object.hasOwn` on a plain object's entry list. -/
def hasOwnEntry : List (Key × SVal) → Key → Bool
  | [], _ => false
  | (k', _) :: rest, k => k' = k || hasOwnEntry rest k

/-- Property read `value[key]`.  On arrays only index keys are modelled
(the claims use integer indices on arrays exclusively); out-of-bounds
indices read as `undefined`.  The primitive case is unreachable from the
embedded code, which always guards with `isStatePrimitive` first. -/
def getKey : SVal → Key → SVal
  | .obj _ es, k => lookupEntry es k
  | .arr _ xs, .idx n => xs.getD n undefV
  | .arr _ _, .str _ => undefV
  | .prim _, _ => undefV

/-- `Object.is`: value equality on primitives, identity-tag equality on
structured values. -/
def objectIs : SVal → SVal → Bool
  | .prim a, .prim b => a == b
  | .obj t _, .obj t' _ => t == t'
  | .arr t _, .arr t' _ => t == t'
  | _, _ => false

/-- `getAtPath` from the source: navigate `path` through `state`,
stopping with `undefined` as soon as the current value is a primitive. -/
def getAtPath : SVal → List Key → SVal
  | cur, [] => cur
  | cur, k :: ks => if isStatePrimitive cur then undefV else getAtPath (getKey cur k) ks

example : getAtPath (.obj 0 [(.str "a", .obj 1 [(.str "b", .prim (.num 7))])])
    [.str "a", .str "b"] = .prim (.num 7) := by decide

example : getAtPath (.obj 0 [(.str "a", .prim (.num 1))]) [.str "a", .str "b"]
    = undefV := by decide

example : getAtPath (.arr 0 [.prim (.num 1), .prim (.num 2)]) [.idx 5]
    = undefV := by decide

/-- The assignment `updated[k] = next` on a spread-copied object's entry
list: an existing key is replaced in place, a new key is appended, as in
JavaScript. -/
def setEntry : List (Key × SVal) → Key → SVal → List (Key × SVal)
  | [], k, x => [(k, x)]
  | (k', v) :: rest, k, x =>
      if k' = k then (k, x) :: rest else (k', v) :: setEntry rest k x

/-- The assignment `updated[n] = next` on a spread-copied array: an
in-bounds index is replaced; assigning past the end extends the array,
with the intervening holes reading as `undefined`. -/
def setElem (xs : List SVal) (n : Nat) (x : SVal) : List SVal :=
  if n < xs.length then xs.set n x
  else xs ++ List.replicate (n - xs.length) undefV ++ [x]

/-- The shallow clone-and-assign step of `setSelected`
(`[...current]` / `{...current}` followed by `updated[key] = next`).
The clone is a new reference: it receives the fresh tag and the counter
advances.  The primitive case is unreachable (callers guard with
`isStatePrimitive`). -/
def cloneSet (v : SVal) (k : Key) (x : SVal) (fresh : Nat) : SVal × Nat :=
  match v, k with
  | .obj _ es, k => (.obj fresh (setEntry es k x), fresh + 1)
  | .arr _ xs, .idx n => (.arr fresh (setElem xs n x), fresh + 1)
  | .arr _ xs, .str _ => (.arr fresh xs, fresh + 1)
  | .prim p, _ => (.prim p, fresh)

/-- A `Setter<T>`: either a plain value or an updater function applied
to the previous value.  An updater may allocate structured values, so it
threads the fresh-tag counter. -/
inductive SetterM where
  | value (v : SVal)
  | update (f : SVal → Nat → SVal × Nat)

/-- `typeof setter === "function" ? setter(prev) : setter`. -/
def applySetter : SetterM → SVal → Nat → SVal × Nat
  | .value v, _, fresh => (v, fresh)
  | .update f, prev, fresh => f prev fresh

/-- `Object.hasOwn(value, key)`.  Only the object case is reachable in
`setSelected` (the array test short-circuits the call); for arrays it is
index-within-bounds. -/
def hasOwnKey : SVal → Key → Bool
  | .obj _ es, k => hasOwnEntry es k
  | .arr _ xs, .idx n => n < xs.length
  | .arr _ _, .str _ => false
  | .prim _, _ => false

/-- The walk loop of `setSelected`: iterate over all keys but the last,
pushing each visited container onto `parents` (paired with the key used
to leave it); abort with `none` — the discarded-write branch — if a
primitive is met. -/
def walkPath : SVal → List Key → Option (List (SVal × Key) × SVal)
  | cur, [] => some ([], cur)
  | cur, k :: ks =>
      if isStatePrimitive cur then none
      else
        match walkPath (getKey cur k) ks with
        | none => none
        | some (ps, fin) => some ((cur, k) :: ps, fin)

/-- The reverse loop of `setSelected`: clone every collected parent from
the deepest up to the root, grafting the already-rebuilt child in at the
recorded key. -/
def rebuild : List (SVal × Key) → SVal → Nat → SVal × Nat
  | [], updated, fresh => (updated, fresh)
  | (p, k) :: rest, updated, fresh =>
      let uf := rebuild rest updated fresh
      cloneSet p k uf.1 uf.2

/-- Result of a selection write: the root value to store, the advanced
fresh-tag counter, and whether `warnDiscardedSet` was invoked. -/
structure SetResult where
  value : SVal
  fresh : Nat
  warned : Bool
deriving DecidableEq, Repr

/-- `setSelected` from the source, as the function it passes to the
root's `set`: walk to the final parent (discarding, with a dev-mode
warning, if a primitive is crossed), discard when a non-array parent
does not own the leaf key, skip the write when the computed leaf value
is `Object.is`-equal to the previous one, and otherwise clone-and-graft
the whole ancestor chain.  A discard or skip returns the incoming state
itself (the same reference).  The empty path cannot be produced by the
typed `select` API; it is treated as a discard. -/
def setSelected (path : List Key) (setter : SetterM) (state : SVal)
    (fresh : Nat) : SetResult :=
  match walkPath state path.dropLast with
  | none => ⟨state, fresh, true⟩
  | some (parents, current) =>
    if isStatePrimitive current then ⟨state, fresh, true⟩
    else
      match path.getLast? with
      | none => ⟨state, fresh, true⟩
      | some lastKey =>
        if !isArrayVal current && !hasOwnKey current lastKey then
          ⟨state, fresh, true⟩
        else
          let prev := getKey current lastKey
          let nf := applySetter setter prev fresh
          if objectIs prev nf.1 then ⟨state, fresh, false⟩
          else
            let uf := cloneSet current lastKey nf.1 nf.2
            let rf := rebuild parents uf.1 uf.2
            ⟨rf.1, rf.2, false⟩

example :
    setSelected [Key.str "a", Key.str "b"] (.value (.prim (.num 9)))
      (.obj 0 [(.str "a", .obj 1 [(.str "b", .prim (.num 7))]),
               (.str "c", .obj 2 [])]) 10
    = ⟨.obj 11 [(.str "a", .obj 10 [(.str "b", .prim (.num 9))]),
                (.str "c", .obj 2 [])], 12, false⟩ := by decide

example :
    setSelected [Key.str "missing", Key.str "title"] (.value (.prim (.str "x")))
      (.obj 0 []) 5
    = ⟨.obj 0 [], 5, true⟩ := by decide

example :
    setSelected [Key.idx 4] (.value (.prim (.str "z")))
      (.arr 0 [.prim (.str "a")]) 5
    = ⟨.arr 5 [.prim (.str "a"), undefV, undefV, undefV, .prim (.str "z")],
        6, false⟩ := by decide

/-- Outcome classification of a selection write. -/
inductive SetOutcome where
  | discarded
  | unchanged
  | written (v : SVal) (fresh : Nat)
deriving DecidableEq, Repr

/-- Recursive characterization of `setSelected`, used for induction: a
single-key path performs the guarded leaf write; a longer path recurses
into the child and grafts the rebuilt child into a shallow clone of the
current node. -/
def setRec : List Key → SetterM → SVal → Nat → SetOutcome
  | [], _, _, _ => .discarded
  | [k], setter, state, fresh =>
      if isStatePrimitive state then .discarded
      else if !isArrayVal state && !hasOwnKey state k then .discarded
      else
        let prev := getKey state k
        let nf := applySetter setter prev fresh
        if objectIs prev nf.1 then .unchanged
        else
          let uf := cloneSet state k nf.1 nf.2
          .written uf.1 uf.2
  | k :: k' :: ks, setter, state, fresh =>
      if isStatePrimitive state then .discarded
      else
        match setRec (k' :: ks) setter (getKey state k) fresh with
        | .discarded => .discarded
        | .unchanged => .unchanged
        | .written u f1 =>
            let uf := cloneSet state k u f1
            .written uf.1 uf.2

/-- Interpretation of a `SetOutcome` as the `SetResult` produced by
`setSelected`: discard and no-op both hand the incoming state back. -/
def ofOutcome (state : SVal) (fresh : Nat) : SetOutcome → SetResult
  | .discarded => ⟨state, fresh, true⟩
  | .unchanged => ⟨state, fresh, false⟩
  | .written u f => ⟨u, f, false⟩

/-- The outcome of `setSelected`, phrased over `walkPath`/`rebuild`
exactly as the source's control flow runs. -/
def setWalkOutcome (path : List Key) (setter : SetterM) (state : SVal)
    (fresh : Nat) : SetOutcome :=
  match walkPath state path.dropLast with
  | none => .discarded
  | some (parents, current) =>
    if isStatePrimitive current then .discarded
    else
      match path.getLast? with
      | none => .discarded
      | some lastKey =>
        if !isArrayVal current && !hasOwnKey current lastKey then .discarded
        else
          let prev := getKey current lastKey
          let nf := applySetter setter prev fresh
          if objectIs prev nf.1 then .unchanged
          else
            let uf := cloneSet current lastKey nf.1 nf.2
            let rf := rebuild parents uf.1 uf.2
            .written rf.1 rf.2

theorem setSelected_eq_walkOutcome (path : List Key) (setter : SetterM)
    (state : SVal) (fresh : Nat) :
    setSelected path setter state fresh
      = ofOutcome state fresh (setWalkOutcome path setter state fresh) := by
  unfold setSelected setWalkOutcome
  cases walkPath state path.dropLast with
  | none => rfl
  | some pc =>
      obtain ⟨parents, current⟩ := pc
      dsimp only
      cases isStatePrimitive current
      · cases path.getLast? with
        | none => rfl
        | some lastKey =>
            dsimp only
            cases !isArrayVal current && !hasOwnKey current lastKey
            · simp only [Bool.false_eq_true, if_false]
              cases objectIs (getKey current lastKey)
                  (applySetter setter (getKey current lastKey) fresh).1 <;> rfl
            · rfl
      · rfl

theorem setRec_eq_walkOutcome :
    ∀ (path : List Key) (setter : SetterM) (state : SVal) (fresh : Nat),
    setRec path setter state fresh = setWalkOutcome path setter state fresh
  | [], setter, state, fresh => by
      unfold setRec setWalkOutcome
      simp only [List.dropLast_nil, walkPath, List.getLast?_nil]
      cases isStatePrimitive state <;> rfl
  | [k], setter, state, fresh => by
      unfold setRec setWalkOutcome
      simp only [List.dropLast_single, walkPath, List.getLast?_singleton]
      cases isStatePrimitive state
      · simp only [Bool.false_eq_true, if_false]
        cases !isArrayVal state && !hasOwnKey state k
        · simp only [Bool.false_eq_true, if_false]
          cases objectIs (getKey state k)
              (applySetter setter (getKey state k) fresh).1 <;>
            simp [rebuild]
        · rfl
      · rfl
  | k :: k' :: ks, setter, state, fresh => by
      have ih := setRec_eq_walkOutcome (k' :: ks) setter (getKey state k) fresh
      unfold setRec
      rw [ih]
      unfold setWalkOutcome
      simp only [List.dropLast_cons₂, walkPath, List.getLast?_cons_cons]
      cases hp : isStatePrimitive state
      · simp only [Bool.false_eq_true, if_false]
        cases hw : walkPath (getKey state k) (k' :: ks).dropLast with
        | none => rfl
        | some pc =>
            obtain ⟨parents, current⟩ := pc
            dsimp only
            cases isStatePrimitive current
            · cases (k' :: ks).getLast? with
              | none => rfl
              | some lastKey =>
                  dsimp only
                  cases !isArrayVal current && !hasOwnKey current lastKey
                  · simp only [Bool.false_eq_true, if_false]
                    cases objectIs (getKey current lastKey)
                        (applySetter setter (getKey current lastKey) fresh).1
                    · simp only [Bool.false_eq_true, if_false, rebuild]
                    · rfl
                  · rfl
            · rfl
      · rfl

/-- Bridge between the loop-with-parents form (`setSelected`) and the
recursive form (`setRec`). -/
theorem setSelected_eq_setRec (path : List Key) (setter : SetterM)
    (state : SVal) (fresh : Nat) :
    setSelected path setter state fresh
      = ofOutcome state fresh (setRec path setter state fresh) := by
  rw [setRec_eq_walkOutcome, setSelected_eq_walkOutcome]

/-- Identity tag of a structured value. -/
def topTag : SVal → Option Nat
  | .prim _ => none
  | .obj t _ => some t
  | .arr t _ => some t

mutual

/-- Every identity tag occurring anywhere in the value is below `n`:
the well-formedness invariant tying a value to the fresh-tag counter. -/
def tagsBelow : SVal → Nat → Bool
  | .prim _, _ => true
  | .obj t es, n => decide (t < n) && tagsBelowEntries es n
  | .arr t xs, n => decide (t < n) && tagsBelowList xs n

def tagsBelowEntries : List (Key × SVal) → Nat → Bool
  | [], _ => true
  | (_, v) :: rest, n => tagsBelow v n && tagsBelowEntries rest n

def tagsBelowList : List SVal → Nat → Bool
  | [], _ => true
  | v :: rest, n => tagsBelow v n && tagsBelowList rest n

end

/-- The selection path is valid for a write in `state`: nonempty, all
intermediate values structured, and the final parent either an array or
an owner of the leaf key.  This is exactly the complement of the
discarded-write condition of `setSelected`. -/
def validPathB : SVal → List Key → Bool
  | _, [] => false
  | state, [k] =>
      !isStatePrimitive state && (isArrayVal state || hasOwnKey state k)
  | state, k :: k' :: ks =>
      !isStatePrimitive state && validPathB (getKey state k) (k' :: ks)

/-- Navigation through `path` in `state` meets no primitive, including
at the destination. -/
def structuredAlong : SVal → List Key → Bool
  | state, [] => !isStatePrimitive state
  | state, k :: ks => !isStatePrimitive state && structuredAlong (getKey state k) ks

theorem setRec_discarded_iff :
    ∀ (path : List Key) (setter : SetterM) (state : SVal) (fresh : Nat),
    path ≠ [] →
    (setRec path setter state fresh = .discarded ↔ validPathB state path = false)
  | [], _, _, _, h => absurd rfl h
  | [k], setter, state, fresh, _ => by
      unfold setRec validPathB
      cases hp : isStatePrimitive state
      · simp only [Bool.false_eq_true, if_false, Bool.not_false, Bool.true_and]
        cases hown : (!isArrayVal state && !hasOwnKey state k)
        · simp only [Bool.false_eq_true, if_false]
          have : (isArrayVal state || hasOwnKey state k) = true := by
            cases ha : isArrayVal state <;> cases ho : hasOwnKey state k <;>
              simp_all
          rw [this]
          cases objectIs (getKey state k)
              (applySetter setter (getKey state k) fresh).1 <;> simp
        · simp only [if_true, true_iff]
          cases ha : isArrayVal state <;> cases ho : hasOwnKey state k <;>
            simp_all
      · simp [hp]
  | k :: k' :: ks, setter, state, fresh, _ => by
      have ih := setRec_discarded_iff (k' :: ks) setter (getKey state k) fresh
        (List.cons_ne_nil k' ks)
      unfold setRec validPathB
      cases hp : isStatePrimitive state
      · simp only [Bool.false_eq_true, if_false, Bool.not_false, Bool.true_and]
        cases ho : setRec (k' :: ks) setter (getKey state k) fresh <;>
          simp_all
      · simp [hp]

theorem getAtPath_cons {s : SVal} (hp : isStatePrimitive s = false)
    (k : Key) (ks : List Key) :
    getAtPath s (k :: ks) = getAtPath (getKey s k) ks := by
  simp [getAtPath, hp]

theorem lookupEntry_setEntry_self :
    ∀ (es : List (Key × SVal)) (k : Key) (x : SVal),
    lookupEntry (setEntry es k x) k = x
  | [], k, x => by simp [setEntry, lookupEntry]
  | (k', v) :: rest, k, x => by
      by_cases h : k' = k
      · simp [setEntry, h, lookupEntry]
      · simp [setEntry, h, lookupEntry, lookupEntry_setEntry_self rest k x]

theorem lookupEntry_setEntry_ne :
    ∀ (es : List (Key × SVal)) (k k' : Key) (x : SVal), k' ≠ k →
    lookupEntry (setEntry es k x) k' = lookupEntry es k'
  | [], k, k', x, h => by
      have hne : ¬ k = k' := fun hh => h hh.symm
      simp [setEntry, lookupEntry, hne]
  | (k0, v) :: rest, k, k', x, h => by
      by_cases h0 : k0 = k
      · subst h0
        have hne : ¬ k0 = k' := fun hh => h hh.symm
        simp [setEntry, lookupEntry, hne]
      · simp only [setEntry, h0, if_false]
        by_cases h1 : k0 = k'
        · simp [lookupEntry, h1]
        · simp [lookupEntry, h1, lookupEntry_setEntry_ne rest k k' x h]

theorem hasOwnEntry_setEntry_ne :
    ∀ (es : List (Key × SVal)) (k k' : Key) (x : SVal), k' ≠ k →
    hasOwnEntry (setEntry es k x) k' = hasOwnEntry es k'
  | [], k, k', x, h => by
      have hne : ¬ k = k' := fun hh => h hh.symm
      simp [setEntry, hasOwnEntry, hne]
  | (k0, v) :: rest, k, k', x, h => by
      by_cases h0 : k0 = k
      · subst h0
        have hne : ¬ k0 = k' := fun hh => h hh.symm
        simp [setEntry, hasOwnEntry, hne]
      · simp [setEntry, h0, hasOwnEntry, hasOwnEntry_setEntry_ne rest k k' x h]

theorem getD_setElem_self (xs : List SVal) (n : Nat) (x : SVal) :
    (setElem xs n x).getD n undefV = x := by
  unfold setElem
  by_cases h : n < xs.length
  · simp [h]
  · simp only [h, if_false]
    have hlen : xs.length ≤ n := by omega
    rw [List.append_assoc, List.getD_eq_getElem?_getD,
      List.getElem?_append_right hlen]
    have h2 : (List.replicate (n - xs.length) undefV).length ≤ n - xs.length := by
      simp
    rw [List.getElem?_append_right h2]
    simp

theorem getD_setElem_ne (xs : List SVal) (n m : Nat) (x : SVal) (h : m ≠ n) :
    (setElem xs n x).getD m undefV = xs.getD m undefV := by
  unfold setElem
  by_cases hb : n < xs.length
  · simp [hb, List.getElem?_set_ne (fun hh => h hh.symm)]
  · simp only [hb, if_false]
    by_cases hm : m < xs.length
    · rw [List.getD_eq_getElem?_getD, List.append_assoc,
        List.getElem?_append_left hm]
      simp
    · have hm' : xs.length ≤ m := by omega
      rw [List.getD_eq_getElem?_getD, List.getD_eq_getElem?_getD,
        List.append_assoc, List.getElem?_append_right hm']
      rw [List.getElem?_eq_none hm']
      by_cases hr : m - xs.length < n - xs.length
      · simp [List.getElem?_append_left, List.getElem?_replicate_of_lt hr,
          List.length_replicate, hr, undefV]
      · have hr2 : (List.replicate (n - xs.length) undefV).length ≤ m - xs.length := by
          simp; omega
        rw [List.getElem?_append_right hr2]
        rw [List.getElem?_eq_none (by simp; omega)]

theorem tagsBelow_lookupEntry :
    ∀ (es : List (Key × SVal)) (k : Key) (n : Nat),
    tagsBelowEntries es n = true → tagsBelow (lookupEntry es k) n = true
  | [], _, _, _ => rfl
  | (k', v) :: rest, k, n, h => by
      simp only [tagsBelowEntries, Bool.and_eq_true] at h
      by_cases hk : k' = k
      · simpa [lookupEntry, hk] using h.1
      · simpa [lookupEntry, hk] using tagsBelow_lookupEntry rest k n h.2

theorem tagsBelow_getD :
    ∀ (xs : List SVal) (i : Nat) (n : Nat),
    tagsBelowList xs n = true → tagsBelow (xs.getD i undefV) n = true
  | [], i, n, _ => by cases i <;> rfl
  | v :: rest, 0, n, h => by
      simp only [tagsBelowList, Bool.and_eq_true] at h
      simpa using h.1
  | v :: rest, i + 1, n, h => by
      simp only [tagsBelowList, Bool.and_eq_true] at h
      simpa using tagsBelow_getD rest i n h.2

theorem tagsBelow_getKey (s : SVal) (k : Key) (n : Nat)
    (h : tagsBelow s n = true) : tagsBelow (getKey s k) n = true := by
  cases s with
  | prim p => cases k <;> rfl
  | obj t es =>
      simp only [tagsBelow, Bool.and_eq_true] at h
      exact tagsBelow_lookupEntry es k n h.2
  | arr t xs =>
      cases k with
      | str s => rfl
      | idx i =>
          simp only [tagsBelow, Bool.and_eq_true] at h
          exact tagsBelow_getD xs i n h.2

theorem objectIs_of_fresh_tag {u s : SVal} {t n : Nat}
    (hu : topTag u = some t) (hn : n ≤ t) (hs : tagsBelow s n = true) :
    objectIs u s = false := by
  cases u <;> cases s <;>
    simp_all [topTag, objectIs, tagsBelow, Bool.and_eq_true, Nat.ne_of_gt,
      beq_iff_eq] <;> omega

/-- The key kind matches the container kind: any key on a plain object,
an integer index on an array.  (A string-keyed write into an array would
store a non-index property in JavaScript; no claim exercises that, and
arrays are modelled without such properties.) -/
def keyFits : SVal → Key → Bool
  | .obj _ _, _ => true
  | .arr _ _, .idx _ => true
  | .arr _ _, .str _ => false
  | .prim _, _ => false

/-- The path is reachable for a write in `state`: every intermediate
value is structured, keys match container kinds, and the final parent
either is an array (any index, in or out of bounds, is writable) or owns
the leaf key. -/
def reachPathB : SVal → List Key → Bool
  | _, [] => false
  | state, [k] => keyFits state k && (isArrayVal state || hasOwnKey state k)
  | state, k :: k' :: ks =>
      !isStatePrimitive state && keyFits state k &&
        reachPathB (getKey state k) (k' :: ks)

theorem keyFits_not_prim {s : SVal} {k : Key} (h : keyFits s k = true) :
    isStatePrimitive s = false := by
  cases s <;> simp_all [keyFits, isStatePrimitive]

theorem reachPathB_imp_valid :
    ∀ (path : List Key) (state : SVal), reachPathB state path = true →
    validPathB state path = true
  | [], _, h => by simp [reachPathB] at h
  | [k], state, h => by
      simp only [reachPathB, Bool.and_eq_true] at h
      simp [validPathB, keyFits_not_prim h.1, h.2]
  | k :: k' :: ks, state, h => by
      simp only [reachPathB, Bool.and_eq_true] at h
      simp [validPathB, h.1.1,
        reachPathB_imp_valid (k' :: ks) (getKey state k) h.2]

theorem cloneSet_not_prim {v : SVal} (k : Key) (x : SVal) (fresh : Nat)
    (h : isStatePrimitive v = false) :
    isStatePrimitive (cloneSet v k x fresh).1 = false := by
  cases v <;> cases k <;> simp_all [cloneSet, isStatePrimitive]

theorem cloneSet_topTag {v : SVal} (k : Key) (x : SVal) (fresh : Nat)
    (h : isStatePrimitive v = false) :
    topTag (cloneSet v k x fresh).1 = some fresh := by
  cases v <;> cases k <;> simp_all [cloneSet, topTag, isStatePrimitive]

theorem cloneSet_snd {v : SVal} (k : Key) (x : SVal) (fresh : Nat)
    (h : isStatePrimitive v = false) :
    (cloneSet v k x fresh).2 = fresh + 1 := by
  cases v <;> cases k <;> simp_all [cloneSet, isStatePrimitive]

theorem getKey_cloneSet_self {v : SVal} {k : Key} (x : SVal) (fresh : Nat)
    (h : keyFits v k = true) :
    getKey (cloneSet v k x fresh).1 k = x := by
  cases v with
  | prim p => simp [keyFits] at h
  | obj t es =>
      cases k <;> simp [cloneSet, getKey, lookupEntry_setEntry_self]
  | arr t xs =>
      cases k with
      | str s => simp [keyFits] at h
      | idx n =>
          show (setElem xs n x).getD n undefV = x
          exact getD_setElem_self xs n x

theorem getKey_cloneSet_ne {v : SVal} {k k' : Key} (x : SVal) (fresh : Nat)
    (hfit : keyFits v k = true) (hne : k' ≠ k) :
    getKey (cloneSet v k x fresh).1 k' = getKey v k' := by
  cases v with
  | prim p => simp [keyFits] at hfit
  | obj t es =>
      cases k <;> simp [cloneSet, getKey, lookupEntry_setEntry_ne es _ _ x hne]
  | arr t xs =>
      cases k with
      | str s => simp [keyFits] at hfit
      | idx n =>
          cases k' with
          | str s' => simp [cloneSet, getKey]
          | idx m =>
              have hm : m ≠ n := fun hh => hne (by simp [hh])
              show (setElem xs n x).getD m undefV = xs.getD m undefV
              exact getD_setElem_ne xs n m x hm

theorem setRec_value_spec :
    ∀ (path : List Key) (state x : SVal) (fresh : Nat),
    reachPathB state path = true →
    tagsBelow state fresh = true →
    objectIs (getAtPath state path) x = false →
    ∃ u f,
      setRec path (.value x) state fresh = .written u f ∧
      fresh < f ∧
      isStatePrimitive u = false ∧
      getAtPath u path = x ∧
      (∀ pre post : List Key, path = pre ++ post → post ≠ [] →
        ∃ t, topTag (getAtPath u pre) = some t ∧ fresh ≤ t) ∧
      (∀ (pre : List Key) (kk : Key) (post : List Key) (k' : Key),
        path = pre ++ kk :: post → k' ≠ kk →
        getAtPath u (pre ++ [k']) = getAtPath state (pre ++ [k']))
  | [], state, x, fresh, hreach, _, _ => by simp [reachPathB] at hreach
  | [k], state, x, fresh, hreach, htags, hobj => by
      simp only [reachPathB, Bool.and_eq_true] at hreach
      obtain ⟨hfit, hlast⟩ := hreach
      have hp : isStatePrimitive state = false := keyFits_not_prim hfit
      have hcond : (!isArrayVal state && !hasOwnKey state k) = false := by
        cases ha : isArrayVal state <;> cases ho : hasOwnKey state k <;>
          simp_all
      rw [getAtPath_cons hp, getAtPath] at hobj
      refine ⟨(cloneSet state k x fresh).1, (cloneSet state k x fresh).2, ?_,
        ?_, cloneSet_not_prim k x fresh hp, ?_, ?_, ?_⟩
      · simp only [setRec, hp, Bool.false_eq_true, if_false, hcond,
          applySetter, hobj]
      · rw [cloneSet_snd k x fresh hp]; omega
      · rw [getAtPath_cons (cloneSet_not_prim k x fresh hp),
          getKey_cloneSet_self x fresh hfit, getAtPath]
      · intro pre post hsplit hpost
        cases pre with
        | cons a pre' =>
            simp only [List.cons_append, List.cons.injEq] at hsplit
            exact absurd (List.append_eq_nil.mp hsplit.2.symm).2 hpost
        | nil =>
            exact ⟨fresh, by simpa [getAtPath] using cloneSet_topTag k x fresh hp,
              le_refl fresh⟩
      · intro pre kk post k' hsplit hne
        cases pre with
        | cons a pre' =>
            simp only [List.cons_append, List.cons.injEq] at hsplit
            exact absurd hsplit.2 (by simp)
        | nil =>
            simp only [List.nil_append, List.cons.injEq] at hsplit
            simp only [List.nil_append]
            rw [getAtPath_cons (cloneSet_not_prim k x fresh hp),
              getAtPath_cons hp,
              getKey_cloneSet_ne x fresh hfit (fun hh => hne (hh.trans hsplit.1))]
  | k1 :: k2 :: ks, state, x, fresh, hreach, htags, hobj => by
      simp only [reachPathB, Bool.and_eq_true] at hreach
      obtain ⟨⟨hp', hfit⟩, hrest⟩ := hreach
      have hp : isStatePrimitive state = false := by
        simpa using hp'
      rw [getAtPath_cons hp] at hobj
      obtain ⟨u, f, hsr, hlt, hupr, hget, hanc, hsib⟩ :=
        setRec_value_spec (k2 :: ks) (getKey state k1) x fresh hrest
          (tagsBelow_getKey state k1 fresh htags) hobj
      have hu2pr : isStatePrimitive (cloneSet state k1 u f).1 = false :=
        cloneSet_not_prim k1 u f hp
      refine ⟨(cloneSet state k1 u f).1, (cloneSet state k1 u f).2, ?_,
        ?_, hu2pr, ?_, ?_, ?_⟩
      · simp only [setRec, hp, Bool.false_eq_true, if_false, hsr]
      · rw [cloneSet_snd k1 u f hp]; omega
      · rw [getAtPath_cons hu2pr, getKey_cloneSet_self u f hfit, hget]
      · intro pre post hsplit hpost
        cases pre with
        | nil =>
            refine ⟨f, ?_, le_of_lt hlt⟩
            simpa [getAtPath] using cloneSet_topTag k1 u f hp
        | cons a pre' =>
            simp only [List.cons_append, List.cons.injEq] at hsplit
            obtain ⟨rfl, hsplit2⟩ := hsplit
            rw [getAtPath_cons hu2pr, getKey_cloneSet_self u f hfit]
            exact hanc pre' post hsplit2 hpost
      · intro pre kk post k' hsplit hne
        cases pre with
        | nil =>
            simp only [List.nil_append, List.cons.injEq] at hsplit
            simp only [List.nil_append]
            rw [getAtPath_cons hu2pr, getAtPath_cons hp,
              getKey_cloneSet_ne u f hfit (fun hh => hne (hh.trans hsplit.1))]
        | cons a pre' =>
            simp only [List.cons_append, List.cons.injEq] at hsplit
            obtain ⟨rfl, hsplit2⟩ := hsplit
            simp only [List.cons_append]
            rw [getAtPath_cons hu2pr, getAtPath_cons hp,
              getKey_cloneSet_self u f hfit]
            exact hsib pre' kk post k' hsplit2 hne

theorem objectIs_refl (v : SVal) : objectIs v v = true := by
  cases v <;> simp [objectIs]

/-!
The store layer.  A root store owns one reactive cell
(`new Signal.State(initial)`); `getInitial` closes over the construction
value and is never reassigned.  The external signal primitive ignores a
write whose value is `Object.is`-equal to the stored one (no version
bump, no watcher notification), which is modelled in `cellWrite`.
`select` availability is computed once, at `createStoreApi` time, as
`options?.selectable ?? !isStatePrimitive(get())`.
-/

/-- `options?.selectable ?? !isStatePrimitive(get())`. -/
def canSelect (opts : Option Bool) (current : SVal) : Bool :=
  opts.getD (!isStatePrimitive current)

structure RootStore where
  initial : SVal
  value : SVal
  fresh : Nat
  selectable : Bool
deriving DecidableEq, Repr

/-- `store(initial)`: allocate the cell and build the API; the `select`
capability is fixed here, from the construction-time value. -/
def mkStore (v : SVal) (fresh : Nat) : RootStore :=
  { initial := v, value := v, fresh := fresh, selectable := canSelect none v }

/-- A selection's API object: built by `select` with
`{ selectable: true }`, so its own `select` is always offered. -/
structure SelectionApi where
  path : List Key
  selectable : Bool
deriving DecidableEq, Repr

def mkSelectionApi (s : RootStore) (path : List Key) : SelectionApi :=
  { path := path, selectable := canSelect (some true) (getAtPath s.value path) }

/-- A subscriber: the per-`subscribe` previous-value slot (declared as
`let previousValue: S | undefined`, hence starting as the value
`undefined`), whether the effect is still watched, and whether its
computed is in the watcher's pending set. -/
structure Subscriber where
  slot : SVal
  active : Bool
  pending : Bool
deriving DecidableEq, Repr

/-- Whole-system state: the root store, the subscriber effects, the
scheduler's single-flight flag (`needsEnqueue`), whether a microtask
flush is queued, the sequence of subscriber-callback invocations
(subscriber index, delivered value), and the number of
`warnDiscardedSet` diagnostics. -/
structure Sys where
  store : RootStore
  subs : List Subscriber
  needsEnqueue : Bool
  queued : Bool
  log : List (Nat × SVal)
  warnings : Nat
deriving DecidableEq, Repr

def initSys (v : SVal) (fresh : Nat) : Sys :=
  { store := mkStore v fresh, subs := [], needsEnqueue := true,
    queued := false, log := [], warnings := 0 }

/-- The watcher callback: `if (needsEnqueue) { needsEnqueue = false;
queueMicrotask(processPending); }`. -/
def notifyWatcher (s : Sys) : Sys :=
  if s.needsEnqueue then { s with needsEnqueue := false, queued := true }
  else s

/-- `Signal.State.set`: an `Object.is`-equal write is absorbed by the
cell; otherwise the value is replaced, every watched computed that read
it becomes pending, and the watcher callback fires. -/
def cellSet (new : SVal) (f' : Nat) (s : Sys) : Sys :=
  if objectIs s.store.value new then s
  else
    notifyWatcher
      { s with
        store := { s.store with value := new, fresh := f' },
        subs := s.subs.map
          (fun sub => if sub.active then { sub with pending := true } else sub) }

/-- The root store's `set`: resolve the setter against the current value
and write the cell. -/
def rootSetOp (setter : SetterM) (s : Sys) : Sys :=
  let nf := applySetter setter s.store.value s.store.fresh
  cellSet nf.1 nf.2 s

/-- A selection's `set`: run `setSelected` inside the root's `set`
(recording its diagnostic if it warned) and write the resulting root
value to the cell.  A discarded or skipped write hands the identical
state back, which the cell absorbs. -/
def selSetOp (path : List Key) (setter : SetterM) (s : Sys) : Sys :=
  cellSet (setSelected path setter s.store.value s.store.fresh).value
    (setSelected path setter s.store.value s.store.fresh).fresh
    { s with warnings := s.warnings +
        (if (setSelected path setter s.store.value s.store.fresh).warned
          then 1 else 0) }

/-- One evaluation of subscriber `i`'s effect body:
`const value = get(); if (!Object.is(previousValue, value))
{ previousValue = value; callback(value); }`. -/
def runBody (i : Nat) (s : Sys) : Sys :=
  match s.subs[i]? with
  | none => s
  | some sub =>
      let v := s.store.value
      if !objectIs sub.slot v then
        { s with subs := s.subs.set i { sub with slot := v },
                 log := s.log ++ [(i, v)] }
      else s

/-- `subscribe(callback)`: allocate a fresh previous-value slot holding
`undefined`, watch a new computed, and evaluate it once synchronously. -/
def subscribeOp (s : Sys) : Sys :=
  runBody s.subs.length
    { s with subs := s.subs ++ [⟨undefV, true, false⟩] }

/-- The drain step of `processPending` for one computed: evaluating a
pending watched computed clears its pendingness and re-runs the effect
body. -/
def evalPending (i : Nat) (s : Sys) : Sys :=
  match s.subs[i]? with
  | none => s
  | some sub =>
      if sub.pending && sub.active then
        runBody i { s with subs := s.subs.set i { sub with pending := false } }
      else s

def drainIdx : List Nat → Sys → Sys
  | [], s => s
  | i :: rest, s => drainIdx rest (evalPending i s)

/-- The queued microtask `processPending`: re-arm the single-flight flag
and force every pending computed once. -/
def flushOp (s : Sys) : Sys :=
  if s.queued then
    drainIdx (List.range s.subs.length)
      { s with needsEnqueue := true, queued := false }
  else s

/-- The cancellation function returned by `effect`: `w.unwatch`
removes the computed from the watcher (and from its pending set). -/
def unsubscribeOp (i : Nat) (s : Sys) : Sys :=
  match s.subs[i]? with
  | none => s
  | some sub =>
      { s with subs := s.subs.set i { sub with active := false, pending := false } }

/-- Externally triggerable transitions of the system. -/
inductive SysOp where
  | set (setter : SetterM)
  | selSet (path : List Key) (setter : SetterM)
  | subscribe
  | flush

def runOp : SysOp → Sys → Sys
  | .set setter, s => rootSetOp setter s
  | .selSet path setter, s => selSetOp path setter s
  | .subscribe, s => subscribeOp s
  | .flush, s => flushOp s

def runOps : List SysOp → Sys → Sys
  | [], s => s
  | op :: rest, s => runOps rest (runOp op s)

/-- A root store carrying one established subscriber (the state right
after `store(v); store.subscribe(cb)`). -/
def subscribedSys (v : SVal) (fresh : Nat) : Sys :=
  subscribeOp (initSys v fresh)

example : (subscribedSys (.prim (.num 0)) 0).log = [(0, .prim (.num 0))] := by
  decide

example : (subscribedSys undefV 0).log = [] := by decide

theorem getAtPath_undefV : ∀ (p : List Key), getAtPath undefV p = undefV
  | [] => rfl
  | _ :: _ => rfl

theorem getAtPath_append :
    ∀ (p1 p2 : List Key) (s : SVal),
    getAtPath s (p1 ++ p2) = getAtPath (getAtPath s p1) p2
  | [], p2, s => rfl
  | k :: ks, p2, s => by
      cases hp : isStatePrimitive s
      · rw [List.cons_append, getAtPath_cons hp, getAtPath_cons hp,
          getAtPath_append ks p2 (getKey s k)]
      · have hs : getAtPath s (k :: ks) = undefV := by
          simp [getAtPath, hp]
        have hs2 : getAtPath s (k :: (ks ++ p2)) = undefV := by
          simp [getAtPath, hp]
        rw [List.cons_append, hs2, hs, getAtPath_undefV]

/-- The accessor of a derived store: `getSelected` from the source. -/
def getSelected (path : List Key) (s : Sys) : SVal :=
  getAtPath s.store.value path

/-- `getInitialSelected` from the source: same navigation, but against
the frozen construction value. -/
def getInitialSelected (path : List Key) (s : Sys) : SVal :=
  getAtPath s.store.initial path

/-- C4.  For every selection and every current root value, reading the
selection is total (the embedded `getAtPath` is a total function — the
source never indexes into a primitive, so no exception can arise), and
whenever navigation meets a primitive (which includes the absent marker
`undefined`) with path segments still to consume, the read returns the
absent marker `undefined`. -/
theorem claim_C4 (s : Sys) (p1 p2 : List Key) (k : Key)
    (hprim : isStatePrimitive (getAtPath s.store.value p1) = true) :
    getSelected (p1 ++ k :: p2) s = undefV := by
  unfold getSelected
  rw [getAtPath_append p1 (k :: p2) s.store.value]
  cases h : getAtPath s.store.value p1 with
  | prim p => simp [getAtPath, isStatePrimitive]
  | obj t es => rw [h] at hprim; simp [isStatePrimitive] at hprim
  | arr t xs => rw [h] at hprim; simp [isStatePrimitive] at hprim

theorem claim_C4_witness :
    isStatePrimitive
        (getAtPath (initSys (.obj 0 [(.str "a", .prim (.num 1))]) 1).store.value
          [Key.str "a"]) = true ∧
    getSelected [Key.str "a", Key.str "b"]
        (initSys (.obj 0 [(.str "a", .prim (.num 1))]) 1) = undefV :=
  ⟨by decide,
    claim_C4 (initSys (.obj 0 [(.str "a", .prim (.num 1))]) 1)
      [Key.str "a"] [] (Key.str "b") (by decide)⟩

theorem runBody_store (i : Nat) (s : Sys) : (runBody i s).store = s.store := by
  unfold runBody
  cases s.subs[i]? with
  | none => rfl
  | some sub =>
      dsimp only
      cases !objectIs sub.slot s.store.value <;> simp

theorem evalPending_store (i : Nat) (s : Sys) :
    (evalPending i s).store = s.store := by
  unfold evalPending
  cases s.subs[i]? with
  | none => rfl
  | some sub =>
      dsimp only
      cases sub.pending && sub.active
      · simp
      · simp [runBody_store]

theorem drainIdx_store :
    ∀ (l : List Nat) (s : Sys), (drainIdx l s).store = s.store
  | [], s => rfl
  | i :: rest, s => by
      rw [drainIdx, drainIdx_store rest (evalPending i s), evalPending_store]

theorem cellSet_initial (x : SVal) (f : Nat) (s : Sys) :
    (cellSet x f s).store.initial = s.store.initial ∧
    (cellSet x f s).store.selectable = s.store.selectable := by
  unfold cellSet notifyWatcher
  cases objectIs s.store.value x
  · cases s.needsEnqueue <;> simp
  · simp

theorem runOp_store_const (op : SysOp) (s : Sys) :
    (runOp op s).store.initial = s.store.initial ∧
    (runOp op s).store.selectable = s.store.selectable := by
  cases op with
  | set setter => exact cellSet_initial _ _ _
  | selSet path setter =>
      simpa using cellSet_initial
        (setSelected path setter s.store.value s.store.fresh).value
        (setSelected path setter s.store.value s.store.fresh).fresh
        { s with warnings := s.warnings +
            (if (setSelected path setter s.store.value s.store.fresh).warned
              then 1 else 0) }
  | subscribe => rw [runOp, subscribeOp, runBody_store]; exact ⟨rfl, rfl⟩
  | flush =>
      rw [runOp, flushOp]
      cases s.queued
      · simp
      · simp [drainIdx_store]

theorem runOps_store_const :
    ∀ (ops : List SysOp) (s : Sys),
    (runOps ops s).store.initial = s.store.initial ∧
    (runOps ops s).store.selectable = s.store.selectable
  | [], s => ⟨rfl, rfl⟩
  | op :: rest, s => by
      rw [runOps]
      refine ⟨?_, ?_⟩
      · rw [(runOps_store_const rest (runOp op s)).1, (runOp_store_const op s).1]
      · rw [(runOps_store_const rest (runOp op s)).2, (runOp_store_const op s).2]

theorem getAtPath_prim_mid (s : SVal) (p1 p2 : List Key) (k : Key)
    (hprim : isStatePrimitive (getAtPath s p1) = true) :
    getAtPath s (p1 ++ k :: p2) = undefV := by
  rw [getAtPath_append p1 (k :: p2) s]
  cases h : getAtPath s p1 with
  | prim p => simp [getAtPath, isStatePrimitive]
  | obj t es => rw [h] at hprim; simp [isStatePrimitive] at hprim
  | arr t xs => rw [h] at hprim; simp [isStatePrimitive] at hprim

/-- C9.  `getInitial` always returns the construction value: no
operation sequence (sets, selection sets, subscribes, flushes) ever
changes `store.initial`, while a direct set leaves `get()` holding (a
value `Object.is`-equal to) the written value; a selection's
`getInitial` navigates the frozen initial value, returning the absent
marker where that navigation crosses a primitive. -/
theorem claim_C9 (v : SVal) (fresh : Nat) (ops : List SysOp)
    (path : List Key) :
    (runOps ops (initSys v fresh)).store.initial = v ∧
    (∀ (x : SVal) (s : Sys),
      objectIs ((rootSetOp (.value x) s).store.value) x = true) ∧
    getInitialSelected path (runOps ops (initSys v fresh)) = getAtPath v path ∧
    (∀ (p1 p2 : List Key) (k : Key), path = p1 ++ k :: p2 →
      isStatePrimitive (getAtPath v p1) = true →
      getInitialSelected path (runOps ops (initSys v fresh)) = undefV) := by
  have hinit : (runOps ops (initSys v fresh)).store.initial = v :=
    (runOps_store_const ops (initSys v fresh)).1
  refine ⟨hinit, ?_, ?_, ?_⟩
  · intro x s
    unfold rootSetOp cellSet applySetter notifyWatcher
    cases h : objectIs s.store.value x
    · simp only [h, Bool.false_eq_true, if_false]
      cases s.needsEnqueue <;> simp [objectIs_refl]
    · simp [h]
  · unfold getInitialSelected
    rw [hinit]
  · intro p1 p2 k hsplit hprim
    unfold getInitialSelected
    rw [hinit, hsplit]
    exact getAtPath_prim_mid v p1 p2 k hprim

theorem claim_C9_witness :
    (runOps [SysOp.set (.value (.prim (.num 5)))]
        (initSys (.obj 0 [(.str "a", .prim (.num 1))]) 1)).store.initial
      = .obj 0 [(.str "a", .prim (.num 1))] ∧
    (∀ (x : SVal) (s : Sys),
      objectIs ((rootSetOp (.value x) s).store.value) x = true) ∧
    getInitialSelected [Key.str "a", Key.str "b"]
        (runOps [SysOp.set (.value (.prim (.num 5)))]
          (initSys (.obj 0 [(.str "a", .prim (.num 1))]) 1))
      = getAtPath (.obj 0 [(.str "a", .prim (.num 1))]) [Key.str "a", Key.str "b"] ∧
    (∀ (p1 p2 : List Key) (k : Key),
      [Key.str "a", Key.str "b"] = p1 ++ k :: p2 →
      isStatePrimitive (getAtPath (.obj 0 [(.str "a", .prim (.num 1))]) p1) = true →
      getInitialSelected [Key.str "a", Key.str "b"]
          (runOps [SysOp.set (.value (.prim (.num 5)))]
            (initSys (.obj 0 [(.str "a", .prim (.num 1))]) 1)) = undefV) :=
  claim_C9 (.obj 0 [(.str "a", .prim (.num 1))]) 1
    [SysOp.set (.value (.prim (.num 5)))] [Key.str "a", Key.str "b"]

/-- C10.  A store's `select` availability is computed once, at
construction: a root store built over a primitive keeps
`select = undefined` under every later operation (even sets installing
structured values), while every store returned by `select` passes
`{ selectable: true }` and therefore always offers `select`, whatever
its current value. -/
theorem claim_C10 (v w : SVal) (fresh : Nat) (ops : List SysOp)
    (r : RootStore) (path : List Key) :
    (runOps ops (initSys v fresh)).store.selectable = !isStatePrimitive v ∧
    (isStatePrimitive v = true →
      (runOps (SysOp.set (.value w) :: ops)
        (initSys v fresh)).store.selectable = false) ∧
    (mkSelectionApi r path).selectable = true := by
  refine ⟨?_, ?_, rfl⟩
  · rw [(runOps_store_const ops (initSys v fresh)).2]
    rfl
  · intro hv
    rw [(runOps_store_const (SysOp.set (.value w) :: ops)
      (initSys v fresh)).2]
    show canSelect none v = false
    simp [canSelect, hv]

theorem claim_C10_witness :
    (runOps [] (initSys (.prim (.num 7)) 0)).store.selectable
        = !isStatePrimitive (.prim (.num 7)) ∧
    (isStatePrimitive (.prim (.num 7)) = true →
      (runOps [SysOp.set (.value (.obj 0 [])), SysOp.subscribe]
        (initSys (.prim (.num 7)) 0)).store.selectable = false) ∧
    (mkSelectionApi (mkStore (.obj 0 [(.str "a", .prim (.num 1))]) 1)
      [Key.str "missing"]).selectable = true :=
  claim_C10 (.prim (.num 7)) (.obj 0 []) 0 [SysOp.subscribe]
    (mkStore (.obj 0 [(.str "a", .prim (.num 1))]) 1) [Key.str "missing"]

/-- C7 counterexample.  The previous-value slot is declared as
`let previousValue: S | undefined`, i.e. it starts as the real value
`undefined`, not as a sentinel distinct from every value: subscribing
to a store whose current value is `undefined` finds
`Object.is(previousValue, value)` already true, so the first subscribe
invokes the callback zero times, not exactly once. -/
theorem claim_C7_counterexample :
    (subscribedSys undefV 0).log = [] ∧
    ¬ (subscribedSys undefV 0).log.length = 1 := by decide

/-- C7, amended.  The first call to `subscribe` invokes the callback
synchronously exactly once with the current value, provided the current
value is not `Object.is`-equal to `undefined` (the initial content of
the previous-value slot); for a store currently holding `undefined`, no
first synchronous invocation occurs. -/
theorem claim_C7 (v : SVal) (fresh : Nat) (h : objectIs undefV v = false) :
    (subscribedSys v fresh).log = [(0, v)] ∧
    (subscribedSys v fresh).subs = [⟨v, true, false⟩] := by
  unfold subscribedSys subscribeOp initSys runBody
  simp [mkStore, h]

theorem claim_C7_witness :
    objectIs undefV (.prim (.bool true)) = false ∧
    ((subscribedSys (.prim (.bool true)) 3).log = [(0, .prim (.bool true))] ∧
      (subscribedSys (.prim (.bool true)) 3).subs
        = [⟨.prim (.bool true), true, false⟩]) :=
  ⟨by decide, claim_C7 (.prim (.bool true)) 3 (by decide)⟩

theorem setRec_objectIs_no_write :
    ∀ (path : List Key) (setter : SetterM) (state : SVal) (fresh : Nat),
    objectIs (getAtPath state path)
      (applySetter setter (getAtPath state path) fresh).1 = true →
    setRec path setter state fresh = .discarded ∨
    setRec path setter state fresh = .unchanged
  | [], _, _, _, _ => .inl rfl
  | [k], setter, state, fresh, h => by
      unfold setRec
      cases hp : isStatePrimitive state
      · rw [getAtPath_cons hp, getAtPath] at h
        simp only [Bool.false_eq_true, if_false]
        cases hown : (!isArrayVal state && !hasOwnKey state k)
        · simp [h]
        · simp
      · simp
  | k :: k' :: ks, setter, state, fresh, h => by
      unfold setRec
      cases hp : isStatePrimitive state
      · rw [getAtPath_cons hp] at h
        rcases setRec_objectIs_no_write (k' :: ks) setter (getKey state k)
            fresh h with ho | ho <;>
          simp [ho]
      · simp

/-- C3.  A selection write whose computed next leaf value is
`Object.is`-equal to the current leaf value is a complete no-op: the
root cell keeps the identical value and fresh-tag counter (so no
ancestor clone is allocated), no subscriber becomes pending, no
microtask is queued, and no callback entry is logged. -/
theorem claim_C3 (path : List Key) (setter : SetterM) (s : Sys)
    (h : objectIs (getSelected path s)
      (applySetter setter (getSelected path s) s.store.fresh).1 = true) :
    (selSetOp path setter s).store = s.store ∧
    (selSetOp path setter s).subs = s.subs ∧
    (selSetOp path setter s).log = s.log ∧
    (selSetOp path setter s).queued = s.queued ∧
    (selSetOp path setter s).needsEnqueue = s.needsEnqueue := by
  unfold getSelected at h
  have hb := setSelected_eq_setRec path setter s.store.value s.store.fresh
  rcases setRec_objectIs_no_write path setter s.store.value s.store.fresh h
      with ho | ho <;>
    (rw [ho] at hb
     unfold selSetOp
     rw [hb]
     simp [ofOutcome, cellSet, objectIs_refl])

theorem claim_C3_witness :
    objectIs
        (getSelected [Key.str "a"] (initSys (.obj 0 [(.str "a", .prim (.num 1))]) 1))
        (applySetter (.value (.prim (.num 1)))
          (getSelected [Key.str "a"] (initSys (.obj 0 [(.str "a", .prim (.num 1))]) 1))
          (initSys (.obj 0 [(.str "a", .prim (.num 1))]) 1).store.fresh).1 = true ∧
    ((selSetOp [Key.str "a"] (.value (.prim (.num 1)))
        (initSys (.obj 0 [(.str "a", .prim (.num 1))]) 1)).store
      = (initSys (.obj 0 [(.str "a", .prim (.num 1))]) 1).store ∧
     (selSetOp [Key.str "a"] (.value (.prim (.num 1)))
        (initSys (.obj 0 [(.str "a", .prim (.num 1))]) 1)).subs
      = (initSys (.obj 0 [(.str "a", .prim (.num 1))]) 1).subs ∧
     (selSetOp [Key.str "a"] (.value (.prim (.num 1)))
        (initSys (.obj 0 [(.str "a", .prim (.num 1))]) 1)).log
      = (initSys (.obj 0 [(.str "a", .prim (.num 1))]) 1).log ∧
     (selSetOp [Key.str "a"] (.value (.prim (.num 1)))
        (initSys (.obj 0 [(.str "a", .prim (.num 1))]) 1)).queued
      = (initSys (.obj 0 [(.str "a", .prim (.num 1))]) 1).queued ∧
     (selSetOp [Key.str "a"] (.value (.prim (.num 1)))
        (initSys (.obj 0 [(.str "a", .prim (.num 1))]) 1)).needsEnqueue
      = (initSys (.obj 0 [(.str "a", .prim (.num 1))]) 1).needsEnqueue) :=
  ⟨by decide,
    claim_C3 [Key.str "a"] (.value (.prim (.num 1)))
      (initSys (.obj 0 [(.str "a", .prim (.num 1))]) 1) (by decide)⟩

theorem validPathB_arr :
    ∀ (p0 : List Key) (state : SVal) (n : Nat),
    structuredAlong state p0 = true →
    isArrayVal (getAtPath state p0) = true →
    validPathB state (p0 ++ [Key.idx n]) = true
  | [], state, n, _, harr => by
      have hp : isStatePrimitive state = false := by
        cases state <;> simp_all [isArrayVal, isStatePrimitive, getAtPath]
      rw [getAtPath] at harr
      simp [validPathB, hp, harr]
  | k :: ks, state, n, hstruct, harr => by
      simp only [structuredAlong, Bool.and_eq_true] at hstruct
      obtain ⟨hp', hrest⟩ := hstruct
      have hp : isStatePrimitive state = false := by simpa using hp'
      rw [getAtPath_cons hp] at harr
      have ih := validPathB_arr ks (getKey state k) n hrest harr
      cases hks : ks ++ [Key.idx n] with
      | nil => simp at hks
      | cons r1 rs =>
          rw [List.cons_append, hks, validPathB, ← hks, ih, hp]
          rfl

/-- C2.  A selection write along an invalid path (one crossing a
primitive or absent intermediate, or ending at a non-array parent not
owning the leaf key) is discarded: the whole system is unchanged except
that exactly one `warnDiscardedSet` diagnostic is recorded — the root
keeps the identical value, no subscriber is marked pending, no microtask
is queued, no callback is logged, and (the embedded write being a total
function) no exception arises.  When the final parent is an array, any
integer index — out of bounds included — is accepted without a
discard. -/
theorem claim_C2 (path p0 : List Key) (n : Nat) (setter setter2 : SetterM)
    (s : Sys) (state : SVal) (fresh : Nat)
    (hne : path ≠ [])
    (hinvalid : validPathB s.store.value path = false)
    (hstruct : structuredAlong state p0 = true)
    (harr : isArrayVal (getAtPath state p0) = true) :
    selSetOp path setter s = { s with warnings := s.warnings + 1 } ∧
    (setSelected (p0 ++ [Key.idx n]) setter2 state fresh).warned = false := by
  constructor
  · have ho : setRec path setter s.store.value s.store.fresh = .discarded :=
      (setRec_discarded_iff path setter s.store.value s.store.fresh hne).mpr
        hinvalid
    have hb := setSelected_eq_setRec path setter s.store.value s.store.fresh
    rw [ho] at hb
    unfold selSetOp
    rw [hb]
    simp [ofOutcome, cellSet, objectIs_refl]
  · have hvalid := validPathB_arr p0 state n hstruct harr
    have hnd : setRec (p0 ++ [Key.idx n]) setter2 state fresh ≠ .discarded := by
      intro hd
      rw [(setRec_discarded_iff (p0 ++ [Key.idx n]) setter2 state fresh
        (by simp)).mp hd] at hvalid
      exact absurd hvalid (by simp)
    have hb := setSelected_eq_setRec (p0 ++ [Key.idx n]) setter2 state fresh
    cases ho : setRec (p0 ++ [Key.idx n]) setter2 state fresh with
    | discarded => exact absurd ho hnd
    | unchanged => rw [ho] at hb; rw [hb]; rfl
    | written u f => rw [ho] at hb; rw [hb]; rfl

theorem claim_C2_witness :
    ([Key.str "missing", Key.str "title"] : List Key) ≠ [] ∧
    validPathB (initSys (.obj 0 []) 1).store.value
      [Key.str "missing", Key.str "title"] = false ∧
    structuredAlong (.obj 5 [(.str "xs", .arr 6 [.prim (.num 1)])])
      [Key.str "xs"] = true ∧
    isArrayVal (getAtPath (.obj 5 [(.str "xs", .arr 6 [.prim (.num 1)])])
      [Key.str "xs"]) = true ∧
    (selSetOp [Key.str "missing", Key.str "title"] (.value (.prim (.str "x")))
        (initSys (.obj 0 []) 1)
      = { initSys (.obj 0 []) 1 with
          warnings := (initSys (.obj 0 []) 1).warnings + 1 } ∧
     (setSelected ([Key.str "xs"] ++ [Key.idx 9]) (.value (.prim (.str "z")))
        (.obj 5 [(.str "xs", .arr 6 [.prim (.num 1)])]) 7).warned = false) :=
  ⟨by decide, by decide, by decide, by decide,
    claim_C2 [Key.str "missing", Key.str "title"] [Key.str "xs"] 9
      (.value (.prim (.str "x"))) (.value (.prim (.str "z")))
      (initSys (.obj 0 []) 1) (.obj 5 [(.str "xs", .arr 6 [.prim (.num 1)])]) 7
      (by decide) (by decide) (by decide) (by decide)⟩

theorem subscribedSys_spec (v : SVal) (fresh : Nat) :
    subscribedSys v fresh =
      { store := mkStore v fresh,
        subs := [⟨if objectIs undefV v then undefV else v, true, false⟩],
        needsEnqueue := true, queued := false,
        log := if objectIs undefV v then [] else [(0, v)],
        warnings := 0 } := by
  unfold subscribedSys subscribeOp initSys runBody
  cases h : objectIs undefV v <;> simp [mkStore, h]

theorem slot0_objectIs (v : SVal) :
    objectIs (if objectIs undefV v then undefV else v) v = true := by
  cases h : objectIs undefV v <;> simp [h, objectIs_refl]

theorem burst_sets :
    ∀ (setters : List SetterM) (s : Sys) (slot0 : SVal) (p : Bool),
    s.subs = [⟨slot0, true, p⟩] → s.queued = p → s.needsEnqueue = !p →
    ∃ p' : Bool,
      (runOps (setters.map SysOp.set) s).subs = [⟨slot0, true, p'⟩] ∧
      (runOps (setters.map SysOp.set) s).queued = p' ∧
      (runOps (setters.map SysOp.set) s).needsEnqueue = !p' ∧
      (runOps (setters.map SysOp.set) s).log = s.log ∧
      (p' = false →
        (runOps (setters.map SysOp.set) s).store.value = s.store.value ∧
        p = false)
  | [], s, slot0, p, hsubs, hq, hne =>
      ⟨p, hsubs, hq, hne, rfl, fun hp => ⟨rfl, hp⟩⟩
  | setter :: rest, s, slot0, p, hsubs, hq, hne => by
      rw [List.map_cons, runOps]
      by_cases heq : objectIs s.store.value
          (applySetter setter s.store.value s.store.fresh).1 = true
      · have hstep : runOp (SysOp.set setter) s = s := by
          unfold runOp rootSetOp cellSet
          simp [heq]
        rw [hstep]
        exact burst_sets rest s slot0 p hsubs hq hne
      · have heq' : objectIs s.store.value
            (applySetter setter s.store.value s.store.fresh).1 = false := by
          simpa using heq
        have hstep : runOp (SysOp.set setter) s =
            { s with
              store := { s.store with
                value := (applySetter setter s.store.value s.store.fresh).1,
                fresh := (applySetter setter s.store.value s.store.fresh).2 },
              subs := [⟨slot0, true, true⟩],
              needsEnqueue := false, queued := true } := by
          show rootSetOp setter s = _
          unfold rootSetOp cellSet notifyWatcher
          rw [hsubs]
          cases hp : p
          · rw [hp] at hne
            simp only [Bool.not_false] at hne
            simp [heq', hne]
          · rw [hp] at hq hne
            simp only [Bool.not_true] at hne
            simp [heq', hne, hq]
        rw [hstep]
        obtain ⟨p', h1, h2, h3, h4, h5⟩ :=
          burst_sets rest
            { s with
              store := { s.store with
                value := (applySetter setter s.store.value s.store.fresh).1,
                fresh := (applySetter setter s.store.value s.store.fresh).2 },
              subs := [⟨slot0, true, true⟩],
              needsEnqueue := false, queued := true }
            slot0 true rfl rfl rfl
        exact ⟨p', h1, h2, h3, h4,
          fun hpf => absurd (h5 hpf).2 (by simp)⟩

theorem flush_single (s : Sys) (slot0 : SVal) (p : Bool)
    (hsubs : s.subs = [⟨slot0, true, p⟩]) (hq : s.queued = p) :
    (flushOp s).log = s.log ++
      (if p then
        (if objectIs slot0 s.store.value then [] else [(0, s.store.value)])
      else []) := by
  obtain ⟨st, subs, nE, q, lg, w⟩ := s
  simp only at hsubs hq ⊢
  subst hq
  subst hsubs
  cases q
  · simp [flushOp]
  · cases hobj : objectIs slot0 st.value <;>
      simp [flushOp, drainIdx, evalPending, runBody, hobj, List.range_succ]

/-- C6, amended.  A burst of synchronous `set` calls after the initial
subscribe invokes no callback synchronously; the single following
microtask flush delivers at most one invocation, carrying exactly the
burst's final value, and delivers it precisely when that final value is
not `Object.is`-equal to the value the subscriber last observed
(otherwise the burst yields zero invocations). -/
theorem claim_C6 (v : SVal) (fresh : Nat) (setters : List SetterM) :
    (runOps (setters.map SysOp.set) (subscribedSys v fresh)).log
      = (subscribedSys v fresh).log ∧
    (flushOp (runOps (setters.map SysOp.set) (subscribedSys v fresh))).log
      = (subscribedSys v fresh).log ++
        (if objectIs (if objectIs undefV v then undefV else v)
            (runOps (setters.map SysOp.set)
              (subscribedSys v fresh)).store.value
          then []
          else [(0, (runOps (setters.map SysOp.set)
            (subscribedSys v fresh)).store.value)]) ∧
    (flushOp (runOps (setters.map SysOp.set) (subscribedSys v fresh))).log.length
      ≤ (subscribedSys v fresh).log.length + 1 := by
  have hspec := subscribedSys_spec v fresh
  obtain ⟨p', h1, h2, h3, h4, h5⟩ :=
    burst_sets setters (subscribedSys v fresh)
      (if objectIs undefV v then undefV else v) false
      (by rw [hspec]) (by rw [hspec]) (by rw [hspec]; rfl)
  have hflush := flush_single
    (runOps (setters.map SysOp.set) (subscribedSys v fresh))
    (if objectIs undefV v then undefV else v) p' h1 h2
  have hv0 : (subscribedSys v fresh).store.value = v := by rw [hspec]; rfl
  refine ⟨h4, ?_, ?_⟩
  · cases hp : p'
    · rw [hp] at hflush h5
      obtain ⟨hval, _⟩ := h5 rfl
      rw [hflush, h4, hval, hv0, slot0_objectIs v]
      simp
    · rw [hp] at hflush
      rw [hflush, h4]
      simp
  · cases hobj : objectIs (if objectIs undefV v then undefV else v)
        (runOps (setters.map SysOp.set) (subscribedSys v fresh)).store.value
    · cases hp : p'
      · rw [hp] at hflush h5
        obtain ⟨hval, _⟩ := h5 rfl
        rw [hflush, h4]
        simp
      · rw [hp] at hflush
        rw [hflush, h4, hobj]
        simp
    · cases hp : p'
      · rw [hp] at hflush
        rw [hflush, h4]
        simp
      · rw [hp] at hflush
        rw [hflush, h4, hobj]
        simp

/-- C6 counterexample.  The claim demands exactly one callback
invocation for every burst; a one-write burst that re-writes the current
value produces zero invocations (the cell absorbs the `Object.is`-equal
write and nothing is delivered at the flush). -/
theorem claim_C6_counterexample :
    (flushOp (rootSetOp (.value (.prim (.num 0)))
        (subscribedSys (.prim (.num 0)) 0))).log
      = (subscribedSys (.prim (.num 0)) 0).log ∧
    (subscribedSys (.prim (.num 0)) 0).log.length = 1 := by decide

/-- C1.  For a structured root value and a path reachable in it, writing
a value `x` not `Object.is`-equal to the current leaf through the
selection gives: reading the path back yields exactly `x`; the root is a
new reference (its tag is fresh, so not `Object.is`-equal to the old
root); the write is not discarded; every ancestor along the path in the
new root is a newly allocated shallow clone (tag at least the old
fresh-tag counter, hence distinct from every reference in the old
value); and every sibling branch leaving the path at any depth is the
identical value — the same reference — as before the write. -/
theorem claim_C1 (state x : SVal) (path : List Key) (fresh : Nat)
    (hreach : reachPathB state path = true)
    (htags : tagsBelow state fresh = true)
    (hx : objectIs (getAtPath state path) x = false) :
    getAtPath (setSelected path (.value x) state fresh).value path = x ∧
    objectIs (setSelected path (.value x) state fresh).value state = false ∧
    (setSelected path (.value x) state fresh).warned = false ∧
    (∀ pre post : List Key, path = pre ++ post → post ≠ [] →
      ∃ t, topTag (getAtPath (setSelected path (.value x) state fresh).value pre)
        = some t ∧ fresh ≤ t) ∧
    (∀ (pre : List Key) (kk : Key) (post : List Key) (k' : Key),
      path = pre ++ kk :: post → k' ≠ kk →
      getAtPath (setSelected path (.value x) state fresh).value (pre ++ [k'])
        = getAtPath state (pre ++ [k'])) := by
  obtain ⟨u, f, hsr, hlt, hupr, hget, hanc, hsib⟩ :=
    setRec_value_spec path state x fresh hreach htags hx
  have hb := setSelected_eq_setRec path (.value x) state fresh
  rw [hsr] at hb
  rw [hb]
  refine ⟨hget, ?_, rfl, hanc, hsib⟩
  have hpath_ne : path ≠ [] := by
    intro h
    rw [h] at hreach
    simp [reachPathB] at hreach
  obtain ⟨t, htag, hle⟩ := hanc [] path rfl hpath_ne
  exact objectIs_of_fresh_tag htag hle htags

theorem claim_C1_witness :
    reachPathB
        (.obj 0 [(.str "a", .obj 1 [(.str "b", .prim (.num 1))]),
                 (.str "c", .obj 2 [])])
        [Key.str "a", Key.str "b"] = true ∧
    tagsBelow
        (.obj 0 [(.str "a", .obj 1 [(.str "b", .prim (.num 1))]),
                 (.str "c", .obj 2 [])]) 3 = true ∧
    objectIs
        (getAtPath
          (.obj 0 [(.str "a", .obj 1 [(.str "b", .prim (.num 1))]),
                   (.str "c", .obj 2 [])])
          [Key.str "a", Key.str "b"])
        (.prim (.num 9)) = false ∧
    (getAtPath
        (setSelected [Key.str "a", Key.str "b"] (.value (.prim (.num 9)))
          (.obj 0 [(.str "a", .obj 1 [(.str "b", .prim (.num 1))]),
                   (.str "c", .obj 2 [])]) 3).value
        [Key.str "a", Key.str "b"] = .prim (.num 9) ∧
     objectIs
        (setSelected [Key.str "a", Key.str "b"] (.value (.prim (.num 9)))
          (.obj 0 [(.str "a", .obj 1 [(.str "b", .prim (.num 1))]),
                   (.str "c", .obj 2 [])]) 3).value
        (.obj 0 [(.str "a", .obj 1 [(.str "b", .prim (.num 1))]),
                 (.str "c", .obj 2 [])]) = false ∧
     (setSelected [Key.str "a", Key.str "b"] (.value (.prim (.num 9)))
        (.obj 0 [(.str "a", .obj 1 [(.str "b", .prim (.num 1))]),
                 (.str "c", .obj 2 [])]) 3).warned = false ∧
     (∀ pre post : List Key,
        [Key.str "a", Key.str "b"] = pre ++ post → post ≠ [] →
        ∃ t, topTag
            (getAtPath
              (setSelected [Key.str "a", Key.str "b"] (.value (.prim (.num 9)))
                (.obj 0 [(.str "a", .obj 1 [(.str "b", .prim (.num 1))]),
                         (.str "c", .obj 2 [])]) 3).value pre)
          = some t ∧ 3 ≤ t) ∧
     (∀ (pre : List Key) (kk : Key) (post : List Key) (k' : Key),
        [Key.str "a", Key.str "b"] = pre ++ kk :: post → k' ≠ kk →
        getAtPath
            (setSelected [Key.str "a", Key.str "b"] (.value (.prim (.num 9)))
              (.obj 0 [(.str "a", .obj 1 [(.str "b", .prim (.num 1))]),
                       (.str "c", .obj 2 [])]) 3).value (pre ++ [k'])
          = getAtPath
              (.obj 0 [(.str "a", .obj 1 [(.str "b", .prim (.num 1))]),
                       (.str "c", .obj 2 [])]) (pre ++ [k']))) :=
  ⟨by decide, by decide, by decide,
    claim_C1
      (.obj 0 [(.str "a", .obj 1 [(.str "b", .prim (.num 1))]),
               (.str "c", .obj 2 [])])
      (.prim (.num 9)) [Key.str "a", Key.str "b"] 3
      (by decide) (by decide) (by decide)⟩

/-- The setter a chained selection passes to its parent's `set`: the
child-level `setSelected` body, threading the allocation counter. -/
def selectionSetter (path : List Key) (setter : SetterM) : SetterM :=
  .update (fun c n =>
    ((setSelected path setter c n).value, (setSelected path setter c n).fresh))

/-- A setter never rewinds the allocation counter (true of plain-value
setters and of every setter built from the store's own operations). -/
def SetterMono (setter : SetterM) : Prop :=
  ∀ (v : SVal) (n : Nat), n ≤ (applySetter setter v n).2

theorem topTag_lt_of_tagsBelow {s : SVal} {n t : Nat}
    (h : tagsBelow s n = true) (ht : topTag s = some t) : t < n := by
  cases s <;> simp_all [tagsBelow, topTag, Bool.and_eq_true]

theorem objectIs_comm (a b : SVal) : objectIs a b = objectIs b a := by
  cases a <;> cases b <;> simp [objectIs, BEq.comm]

theorem lookupEntry_eq_undef_of_not_hasOwn :
    ∀ (es : List (Key × SVal)) (k : Key),
    hasOwnEntry es k = false → lookupEntry es k = undefV
  | [], _, _ => rfl
  | (k', v) :: rest, k, h => by
      simp only [hasOwnEntry, Bool.or_eq_false_iff] at h
      obtain ⟨h1, h2⟩ := h
      simp only [lookupEntry]
      rw [if_neg (by simpa using h1)]
      exact lookupEntry_eq_undef_of_not_hasOwn rest k h2

theorem setRec_prim :
    ∀ (p : List Key) (setter : SetterM) (state : SVal) (fresh : Nat),
    isStatePrimitive state = true → p ≠ [] →
    setRec p setter state fresh = .discarded
  | [], _, _, _, _, h => absurd rfl h
  | [k], setter, state, fresh, hp, _ => by simp [setRec, hp]
  | k :: k' :: ks, setter, state, fresh, hp, _ => by simp [setRec, hp]

theorem setRec_written_mono :
    ∀ (p : List Key) (setter : SetterM) (state : SVal) (fresh : Nat)
      (u : SVal) (f : Nat),
    SetterMono setter → setRec p setter state fresh = .written u f →
    fresh ≤ f ∧ ∃ t, topTag u = some t ∧ fresh ≤ t
  | [], _, _, _, _, _, _, h => by simp [setRec] at h
  | [k], setter, state, fresh, u, f, hmono, h => by
      unfold setRec at h
      cases hp : isStatePrimitive state
      · rw [hp] at h
        simp only [Bool.false_eq_true, if_false] at h
        cases hown : (!isArrayVal state && !hasOwnKey state k)
        · rw [hown] at h
          simp only [Bool.false_eq_true, if_false] at h
          cases hobj : objectIs (getKey state k)
              (applySetter setter (getKey state k) fresh).1
          · rw [hobj] at h
            simp only [Bool.false_eq_true, if_false, SetOutcome.written.injEq] at h
            obtain ⟨hu, hf⟩ := h
            have hmv := hmono (getKey state k) fresh
            constructor
            · rw [← hf, cloneSet_snd k _ _ hp]
              omega
            · exact ⟨(applySetter setter (getKey state k) fresh).2,
                by rw [← hu, cloneSet_topTag k _ _ hp], hmv⟩
          · rw [hobj] at h
            simp at h
        · rw [hown] at h
          simp at h
      · rw [hp] at h
        simp at h
  | k :: k' :: ks, setter, state, fresh, u, f, hmono, h => by
      unfold setRec at h
      cases hp : isStatePrimitive state
      · rw [hp] at h
        simp only [Bool.false_eq_true, if_false] at h
        cases hin : setRec (k' :: ks) setter (getKey state k) fresh with
        | discarded => rw [hin] at h; simp at h
        | unchanged => rw [hin] at h; simp at h
        | written u1 f1 =>
            rw [hin] at h
            simp only [SetOutcome.written.injEq] at h
            obtain ⟨hu, hf⟩ := h
            obtain ⟨hle, t, htag, hlet⟩ :=
              setRec_written_mono (k' :: ks) setter (getKey state k) fresh
                u1 f1 hmono hin
            constructor
            · rw [← hf, cloneSet_snd k _ _ hp]
              omega
            · exact ⟨f1, by rw [← hu, cloneSet_topTag k _ _ hp], hle⟩
      · rw [hp] at h
        simp at h

theorem selectionSetter_mono (p2 : List Key) (setter : SetterM)
    (hmono : SetterMono setter) : SetterMono (selectionSetter p2 setter) := by
  intro v n
  show n ≤ (setSelected p2 setter v n).fresh
  rw [setSelected_eq_setRec]
  cases ho : setRec p2 setter v n with
  | discarded => exact le_refl n
  | unchanged => exact le_refl n
  | written u f =>
      exact (setRec_written_mono p2 setter v n u f hmono ho).1

/-- Value/counter footprint of a write outcome (the pair the root cell
receives). -/
def outVF (state : SVal) (fresh : Nat) : SetOutcome → SVal × Nat
  | .discarded => (state, fresh)
  | .unchanged => (state, fresh)
  | .written u f => (u, f)

theorem ofOutcome_value (state : SVal) (fresh : Nat) (o : SetOutcome) :
    (ofOutcome state fresh o).value = (outVF state fresh o).1 := by
  cases o <;> rfl

theorem ofOutcome_fresh (state : SVal) (fresh : Nat) (o : SetOutcome) :
    (ofOutcome state fresh o).fresh = (outVF state fresh o).2 := by
  cases o <;> rfl

theorem setRec_cons_cons (k k' : Key) (ks : List Key) (setter : SetterM)
    (state : SVal) (fresh : Nat) (hp : isStatePrimitive state = false) :
    setRec (k :: k' :: ks) setter state fresh =
      match setRec (k' :: ks) setter (getKey state k) fresh with
      | .discarded => .discarded
      | .unchanged => .unchanged
      | .written u f1 =>
          .written (cloneSet state k u f1).1 (cloneSet state k u f1).2 := by
  show (if isStatePrimitive state = true then SetOutcome.discarded
        else match setRec (k' :: ks) setter (getKey state k) fresh with
          | .discarded => SetOutcome.discarded
          | .unchanged => SetOutcome.unchanged
          | .written u f1 =>
              SetOutcome.written (cloneSet state k u f1).1
                (cloneSet state k u f1).2) = _
  rw [hp]
  simp

theorem setRec_single_go (k : Key) (setter : SetterM) (state : SVal)
    (fresh : Nat) (hp : isStatePrimitive state = false)
    (hown : (!isArrayVal state && !hasOwnKey state k) = false) :
    setRec [k] setter state fresh =
      if objectIs (getKey state k) (applySetter setter (getKey state k) fresh).1
      then .unchanged
      else .written
        (cloneSet state k (applySetter setter (getKey state k) fresh).1
          (applySetter setter (getKey state k) fresh).2).1
        (cloneSet state k (applySetter setter (getKey state k) fresh).1
          (applySetter setter (getKey state k) fresh).2).2 := by
  unfold setRec
  rw [hp, hown]
  simp

theorem setRec_single_discard (k : Key) (setter : SetterM) (state : SVal)
    (fresh : Nat) (hown : (!isArrayVal state && !hasOwnKey state k) = true) :
    setRec [k] setter state fresh = .discarded := by
  unfold setRec
  cases hp : isStatePrimitive state
  · rw [hown]
    simp
  · simp

theorem getKey_undef_of_own_false (state : SVal) (k : Key)
    (hp : isStatePrimitive state = false)
    (hown : (!isArrayVal state && !hasOwnKey state k) = true) :
    getKey state k = undefV := by
  cases state with
  | prim p => simp [isStatePrimitive] at hp
  | arr t xs => simp [isArrayVal] at hown
  | obj t es =>
      simp only [isArrayVal, Bool.not_false, Bool.true_and, hasOwnKey,
        Bool.not_eq_true'] at hown
      exact lookupEntry_eq_undef_of_not_hasOwn es k hown

theorem setRec_chain :
    ∀ (p1 p2 : List Key) (setter : SetterM) (state : SVal) (fresh : Nat),
    p1 ≠ [] → p2 ≠ [] → tagsBelow state fresh = true → SetterMono setter →
    outVF state fresh (setRec (p1 ++ p2) setter state fresh)
      = outVF state fresh (setRec p1 (selectionSetter p2 setter) state fresh)
  | [], _, _, _, _, h, _, _, _ => absurd rfl h
  | [k], p2, setter, state, fresh, _, h2, htags, hmono => by
      obtain ⟨q, qs, rfl⟩ : ∃ q qs, p2 = q :: qs := by
        cases p2 with
        | nil => exact absurd rfl h2
        | cons q qs => exact ⟨q, qs, rfl⟩
      rw [List.singleton_append]
      cases hp : isStatePrimitive state
      · cases hown : (!isArrayVal state && !hasOwnKey state k)
        · rw [setRec_cons_cons k q qs setter state fresh hp,
            setRec_single_go k (selectionSetter (q :: qs) setter) state fresh
              hp hown]
          have hbr := setSelected_eq_setRec (q :: qs) setter (getKey state k)
            fresh
          have happ : applySetter (selectionSetter (q :: qs) setter)
              (getKey state k) fresh
              = ((setSelected (q :: qs) setter (getKey state k) fresh).value,
                 (setSelected (q :: qs) setter (getKey state k) fresh).fresh) :=
            rfl
          cases hin : setRec (q :: qs) setter (getKey state k) fresh with
          | discarded =>
              rw [hin] at hbr
              rw [happ, hbr]
              simp [ofOutcome, objectIs_refl, outVF]
          | unchanged =>
              rw [hin] at hbr
              rw [happ, hbr]
              simp [ofOutcome, objectIs_refl, outVF]
          | written u f =>
              rw [hin] at hbr
              rw [happ, hbr]
              obtain ⟨hle, t, htag, hlet⟩ :=
                setRec_written_mono (q :: qs) setter (getKey state k) fresh
                  u f hmono hin
              have hchild : tagsBelow (getKey state k) fresh = true :=
                tagsBelow_getKey state k fresh htags
              have hobj : objectIs (getKey state k) u = false := by
                rw [objectIs_comm]
                exact objectIs_of_fresh_tag htag hlet hchild
              simp [ofOutcome, hobj, outVF]
        · rw [setRec_single_discard k _ state fresh hown]
          have hchild := getKey_undef_of_own_false state k hp hown
          rw [setRec_cons_cons k q qs setter state fresh hp, hchild,
            setRec_prim (q :: qs) setter undefV fresh rfl (by simp)]
      · rw [setRec_prim (k :: q :: qs) setter state fresh hp (by simp),
          setRec_prim [k] (selectionSetter (q :: qs) setter) state fresh hp
            (by simp)]
  | k :: k' :: p1'', p2, setter, state, fresh, _, h2, htags, hmono => by
      cases hp : isStatePrimitive state
      · have hrr : (k :: k' :: p1'') ++ p2 = k :: (k' :: (p1'' ++ p2)) := rfl
        rw [hrr, setRec_cons_cons k k' (p1'' ++ p2) setter state fresh hp,
          setRec_cons_cons k k' p1'' (selectionSetter p2 setter) state fresh hp]
        have ih := setRec_chain (k' :: p1'') p2 setter (getKey state k) fresh
          (by simp) h2 (tagsBelow_getKey state k fresh htags) hmono
        rw [show (k' :: p1'') ++ p2 = k' :: (p1'' ++ p2) from rfl] at ih
        cases hin1 : setRec (k' :: (p1'' ++ p2)) setter (getKey state k) fresh
            with
        | discarded =>
            rw [hin1] at ih
            cases hin2 : setRec (k' :: p1'') (selectionSetter p2 setter)
                (getKey state k) fresh with
            | discarded => rfl
            | unchanged => rfl
            | written u2 f2 =>
                rw [hin2] at ih
                simp only [outVF, Prod.mk.injEq] at ih
                obtain ⟨hle2, t2, htag2, hlet2⟩ :=
                  setRec_written_mono (k' :: p1'') (selectionSetter p2 setter)
                    (getKey state k) fresh u2 f2
                    (selectionSetter_mono p2 setter hmono) hin2
                rw [← ih.1] at htag2
                have := topTag_lt_of_tagsBelow
                  (tagsBelow_getKey state k fresh htags) htag2
                omega
        | unchanged =>
            rw [hin1] at ih
            cases hin2 : setRec (k' :: p1'') (selectionSetter p2 setter)
                (getKey state k) fresh with
            | discarded => rfl
            | unchanged => rfl
            | written u2 f2 =>
                rw [hin2] at ih
                simp only [outVF, Prod.mk.injEq] at ih
                obtain ⟨hle2, t2, htag2, hlet2⟩ :=
                  setRec_written_mono (k' :: p1'') (selectionSetter p2 setter)
                    (getKey state k) fresh u2 f2
                    (selectionSetter_mono p2 setter hmono) hin2
                rw [← ih.1] at htag2
                have := topTag_lt_of_tagsBelow
                  (tagsBelow_getKey state k fresh htags) htag2
                omega
        | written u1 f1 =>
            rw [hin1] at ih
            cases hin2 : setRec (k' :: p1'') (selectionSetter p2 setter)
                (getKey state k) fresh with
            | discarded =>
                rw [hin2] at ih
                simp only [outVF, Prod.mk.injEq] at ih
                obtain ⟨hle1, t1, htag1, hlet1⟩ :=
                  setRec_written_mono (k' :: (p1'' ++ p2)) setter
                    (getKey state k) fresh u1 f1 hmono hin1
                rw [ih.1] at htag1
                have := topTag_lt_of_tagsBelow
                  (tagsBelow_getKey state k fresh htags) htag1
                omega
            | unchanged =>
                rw [hin2] at ih
                simp only [outVF, Prod.mk.injEq] at ih
                obtain ⟨hle1, t1, htag1, hlet1⟩ :=
                  setRec_written_mono (k' :: (p1'' ++ p2)) setter
                    (getKey state k) fresh u1 f1 hmono hin1
                rw [ih.1] at htag1
                have := topTag_lt_of_tagsBelow
                  (tagsBelow_getKey state k fresh htags) htag1
                omega
            | written u2 f2 =>
                rw [hin2] at ih
                simp only [outVF, Prod.mk.injEq] at ih
                rw [ih.1, ih.2]
      · rw [setRec_prim ((k :: k' :: p1'') ++ p2) setter state fresh hp
            (by simp),
          setRec_prim (k :: k' :: p1'') (selectionSetter p2 setter) state fresh
            hp (by simp)]

/-- C5.  Chained single-step selection and multi-segment path selection
are observably identical: reads compose (`select(a).select(b).get()`
navigates exactly like `select(a, b).get()` on every root value), and a
write through the chained pair produces the same resulting root value
and the same fresh-tag consumption as the combined path, hence (last
conjuncts) an identical system evolution — same root store, same
subscriber pending marks, same logged notifications, same queued
flush. -/
theorem claim_C5 (p1 p2 : List Key) (setter : SetterM) (state : SVal)
    (fresh : Nat) (s : Sys)
    (h1 : p1 ≠ []) (h2 : p2 ≠ []) (htags : tagsBelow state fresh = true)
    (hmono : SetterMono setter)
    (hstags : tagsBelow s.store.value s.store.fresh = true) :
    (∀ (root : SVal) (q1 q2 : List Key),
      getAtPath (getAtPath root q1) q2 = getAtPath root (q1 ++ q2)) ∧
    (setSelected (p1 ++ p2) setter state fresh).value
      = (setSelected p1 (selectionSetter p2 setter) state fresh).value ∧
    (setSelected (p1 ++ p2) setter state fresh).fresh
      = (setSelected p1 (selectionSetter p2 setter) state fresh).fresh ∧
    (selSetOp (p1 ++ p2) setter s).store
      = (selSetOp p1 (selectionSetter p2 setter) s).store ∧
    (selSetOp (p1 ++ p2) setter s).subs
      = (selSetOp p1 (selectionSetter p2 setter) s).subs ∧
    (selSetOp (p1 ++ p2) setter s).log
      = (selSetOp p1 (selectionSetter p2 setter) s).log ∧
    (selSetOp (p1 ++ p2) setter s).queued
      = (selSetOp p1 (selectionSetter p2 setter) s).queued := by
  have hvf : ∀ (st : SVal) (fr : Nat), tagsBelow st fr = true →
      (setSelected (p1 ++ p2) setter st fr).value
        = (setSelected p1 (selectionSetter p2 setter) st fr).value ∧
      (setSelected (p1 ++ p2) setter st fr).fresh
        = (setSelected p1 (selectionSetter p2 setter) st fr).fresh := by
    intro st fr ht
    have hc := setRec_chain p1 p2 setter st fr h1 h2 ht hmono
    rw [setSelected_eq_setRec, setSelected_eq_setRec]
    constructor
    · rw [ofOutcome_value, ofOutcome_value, hc]
    · rw [ofOutcome_fresh, ofOutcome_fresh, hc]
  refine ⟨?_, (hvf state fresh htags).1, (hvf state fresh htags).2, ?_⟩
  · intro root q1 q2
    exact (getAtPath_append q1 q2 root).symm
  · obtain ⟨hv, hf⟩ := hvf s.store.value s.store.fresh hstags
    unfold selSetOp
    rw [hv, hf]
    unfold cellSet notifyWatcher
    cases hcond : objectIs s.store.value
        (setSelected p1 (selectionSetter p2 setter) s.store.value
          s.store.fresh).value
    · simp only [hcond, Bool.false_eq_true, if_false]
      cases s.needsEnqueue <;> simp
    · simp [hcond]

theorem claim_C5_witness :
    ([Key.str "a"] : List Key) ≠ [] ∧
    ([Key.str "b"] : List Key) ≠ [] ∧
    tagsBelow (.obj 0 [(.str "a", .obj 1 [(.str "b", .prim (.num 1))])]) 2
      = true ∧
    SetterMono (.value (.prim (.num 9))) ∧
    tagsBelow
      (initSys (.obj 0 [(.str "a", .obj 1 [(.str "b", .prim (.num 1))])])
        2).store.value
      (initSys (.obj 0 [(.str "a", .obj 1 [(.str "b", .prim (.num 1))])])
        2).store.fresh = true ∧
    ((∀ (root : SVal) (q1 q2 : List Key),
        getAtPath (getAtPath root q1) q2 = getAtPath root (q1 ++ q2)) ∧
     (setSelected ([Key.str "a"] ++ [Key.str "b"]) (.value (.prim (.num 9)))
        (.obj 0 [(.str "a", .obj 1 [(.str "b", .prim (.num 1))])]) 2).value
       = (setSelected [Key.str "a"]
            (selectionSetter [Key.str "b"] (.value (.prim (.num 9))))
            (.obj 0 [(.str "a", .obj 1 [(.str "b", .prim (.num 1))])]) 2).value ∧
     (setSelected ([Key.str "a"] ++ [Key.str "b"]) (.value (.prim (.num 9)))
        (.obj 0 [(.str "a", .obj 1 [(.str "b", .prim (.num 1))])]) 2).fresh
       = (setSelected [Key.str "a"]
            (selectionSetter [Key.str "b"] (.value (.prim (.num 9))))
            (.obj 0 [(.str "a", .obj 1 [(.str "b", .prim (.num 1))])]) 2).fresh ∧
     (selSetOp ([Key.str "a"] ++ [Key.str "b"]) (.value (.prim (.num 9)))
        (initSys (.obj 0 [(.str "a", .obj 1 [(.str "b", .prim (.num 1))])])
          2)).store
       = (selSetOp [Key.str "a"]
            (selectionSetter [Key.str "b"] (.value (.prim (.num 9))))
            (initSys (.obj 0 [(.str "a", .obj 1 [(.str "b", .prim (.num 1))])])
              2)).store ∧
     (selSetOp ([Key.str "a"] ++ [Key.str "b"]) (.value (.prim (.num 9)))
        (initSys (.obj 0 [(.str "a", .obj 1 [(.str "b", .prim (.num 1))])])
          2)).subs
       = (selSetOp [Key.str "a"]
            (selectionSetter [Key.str "b"] (.value (.prim (.num 9))))
            (initSys (.obj 0 [(.str "a", .obj 1 [(.str "b", .prim (.num 1))])])
              2)).subs ∧
     (selSetOp ([Key.str "a"] ++ [Key.str "b"]) (.value (.prim (.num 9)))
        (initSys (.obj 0 [(.str "a", .obj 1 [(.str "b", .prim (.num 1))])])
          2)).log
       = (selSetOp [Key.str "a"]
            (selectionSetter [Key.str "b"] (.value (.prim (.num 9))))
            (initSys (.obj 0 [(.str "a", .obj 1 [(.str "b", .prim (.num 1))])])
              2)).log ∧
     (selSetOp ([Key.str "a"] ++ [Key.str "b"]) (.value (.prim (.num 9)))
        (initSys (.obj 0 [(.str "a", .obj 1 [(.str "b", .prim (.num 1))])])
          2)).queued
       = (selSetOp [Key.str "a"]
            (selectionSetter [Key.str "b"] (.value (.prim (.num 9))))
            (initSys (.obj 0 [(.str "a", .obj 1 [(.str "b", .prim (.num 1))])])
              2)).queued) :=
  ⟨by decide, by decide, by decide, fun v n => Nat.le_refl n, by decide,
    claim_C5 [Key.str "a"] [Key.str "b"] (.value (.prim (.num 9)))
      (.obj 0 [(.str "a", .obj 1 [(.str "b", .prim (.num 1))])]) 2
      (initSys (.obj 0 [(.str "a", .obj 1 [(.str "b", .prim (.num 1))])]) 2)
      (by decide) (by decide) (by decide) (fun v n => Nat.le_refl n)
      (by decide)⟩

/-- Entries of the invocation log belonging to subscriber 0. -/
def projLog (lg : List (Nat × SVal)) : List (Nat × SVal) :=
  lg.filter (fun e => e.1 == 0)

theorem projLog_append_zero (lg : List (Nat × SVal)) (v : SVal) :
    projLog (lg ++ [(0, v)]) = projLog lg ++ [(0, v)] := by
  simp [projLog, List.filter_append]

theorem projLog_append_ne (lg : List (Nat × SVal)) (i : Nat) (v : SVal)
    (h : i ≠ 0) :
    projLog (lg ++ [(i, v)]) = projLog lg := by
  simp [projLog, List.filter_append, h]

theorem set_append_length :
    ∀ (l : List Subscriber) (x y : Subscriber),
    (l ++ [x]).set l.length y = l ++ [y]
  | [], x, y => rfl
  | a :: rest, x, y => by
      simp only [List.cons_append, List.length_cons, List.set_cons_succ,
        set_append_length rest x y]

/-- Correspondence between a system and the same system carrying one
extra subscriber at position 1: same store, same scheduler flags, the
original subscribers in the same states, and the same subscriber-0
notifications. -/
def simR (s t : Sys) : Prop :=
  t.store = s.store ∧ t.needsEnqueue = s.needsEnqueue ∧
  t.queued = s.queued ∧
  (∃ a b rest, s.subs = a :: rest ∧ t.subs = a :: b :: rest) ∧
  projLog t.log = projLog s.log

theorem simR_warnings {s t : Sys} (h : simR s t) (w1 w2 : Nat) :
    simR { s with warnings := w1 } { t with warnings := w2 } := h

theorem simR_cellSet (x : SVal) (f : Nat) {s t : Sys} (h : simR s t) :
    simR (cellSet x f s) (cellSet x f t) := by
  obtain ⟨hst, hne, hq, ⟨a, b, rest, hs, ht⟩, hlog⟩ := h
  unfold cellSet notifyWatcher
  rw [hst, hne]
  cases hcond : objectIs s.store.value x
  · simp only [Bool.false_eq_true, if_false]
    cases henq : s.needsEnqueue <;>
      simp only [if_true, Bool.false_eq_true, if_false] <;>
      exact ⟨rfl, rfl, by first | rfl | exact hq,
        ⟨_, _, _, by rw [hs]; rfl, by rw [ht]; rfl⟩, hlog⟩
  · exact ⟨hst, hne, hq, ⟨a, b, rest, hs, ht⟩, hlog⟩

theorem simR_cellSet_eq (xs xt : SVal) (fs ft : Nat) (hx : xt = xs)
    (hf : ft = fs) {s t : Sys} (h : simR s t) :
    simR (cellSet xs fs s) (cellSet xt ft t) := by
  subst hx
  subst hf
  exact simR_cellSet _ _ h

theorem simR_rootSetOp (setter : SetterM) {s t : Sys} (h : simR s t) :
    simR (rootSetOp setter s) (rootSetOp setter t) := by
  have hst := h.1
  unfold rootSetOp
  exact simR_cellSet_eq _ _ _ _ (by rw [hst]) (by rw [hst]) h

theorem simR_selSetOp (path : List Key) (setter : SetterM) {s t : Sys}
    (h : simR s t) :
    simR (selSetOp path setter s) (selSetOp path setter t) := by
  have hst := h.1
  unfold selSetOp
  exact simR_cellSet_eq _ _ _ _ (by rw [hst]) (by rw [hst])
    (simR_warnings h _ _)

theorem simR_subscribe {s t : Sys} (h : simR s t) :
    simR (subscribeOp s) (subscribeOp t) := by
  obtain ⟨hst, hne, hq, ⟨a, b, rest, hs, ht⟩, hlog⟩ := h
  unfold subscribeOp runBody
  rw [hs, ht, hst]
  simp only [List.cons_append, List.length_cons, List.getElem?_cons_succ,
    List.getElem?_concat_length]
  cases hdec : objectIs undefV s.store.value
  · simp only [Bool.not_false, if_true]
    refine ⟨rfl, hne, hq,
      ⟨a, b, rest ++ [⟨s.store.value, true, false⟩], ?_, ?_⟩, ?_⟩
    · simp only [List.set_cons_succ, set_append_length]
    · simp only [List.set_cons_succ, set_append_length]
    · rw [projLog_append_ne _ _ _ (by omega),
        projLog_append_ne _ _ _ (by omega)]
      exact hlog
  · simp only [Bool.not_true, Bool.false_eq_true, if_false]
    exact ⟨rfl, hne, hq,
      ⟨a, b, rest ++ [⟨undefV, true, false⟩], rfl, rfl⟩, hlog⟩

theorem simR_evalPending_zero {s t : Sys} (h : simR s t) :
    simR (evalPending 0 s) (evalPending 0 t) := by
  obtain ⟨hst, hne, hq, ⟨a, b, rest, hs, ht⟩, hlog⟩ := h
  unfold evalPending runBody
  rw [hs, ht, hst]
  simp only [List.getElem?_cons_zero, List.set_cons_zero]
  cases hpa : a.pending && a.active
  · simp only [Bool.false_eq_true, if_false]
    exact ⟨hst, hne, hq, ⟨a, b, rest, hs, ht⟩, hlog⟩
  · simp only [if_true, List.getElem?_cons_zero, List.set_cons_zero]
    cases hdec : objectIs a.slot s.store.value
    · simp only [hdec, Bool.not_false, if_true]
      refine ⟨rfl, hne, hq, ⟨_, b, rest, rfl, rfl⟩, ?_⟩
      rw [projLog_append_zero, projLog_append_zero, hlog]
    · simp only [hdec, Bool.not_true, Bool.false_eq_true, if_false]
      exact ⟨rfl, hne, hq, ⟨_, b, rest, rfl, rfl⟩, hlog⟩

theorem simR_evalPending_t_one {s t : Sys} (h : simR s t) :
    simR s (evalPending 1 t) := by
  obtain ⟨hst, hne, hq, ⟨a, b, rest, hs, ht⟩, hlog⟩ := h
  unfold evalPending runBody
  rw [ht, hst]
  simp only [List.getElem?_cons_succ, List.getElem?_cons_zero,
    List.set_cons_succ, List.set_cons_zero]
  cases hpa : b.pending && b.active
  · simp only [Bool.false_eq_true, if_false]
    exact ⟨hst, hne, hq, ⟨a, b, rest, hs, ht⟩, hlog⟩
  · simp only [if_true, List.getElem?_cons_succ, List.getElem?_cons_zero,
      List.set_cons_succ, List.set_cons_zero]
    cases hdec : objectIs b.slot s.store.value
    · simp only [hdec, Bool.not_false, if_true]
      refine ⟨rfl, hne, hq, ⟨a, _, rest, hs, rfl⟩, ?_⟩
      rw [projLog_append_ne _ _ _ (by omega), hlog]
    · simp only [hdec, Bool.not_true, Bool.false_eq_true, if_false]
      exact ⟨rfl, hne, hq, ⟨a, _, rest, hs, rfl⟩, hlog⟩

theorem simR_evalPending_shift (j : Nat) {s t : Sys} (h : simR s t) :
    simR (evalPending (j + 1) s) (evalPending (j + 2) t) := by
  obtain ⟨hst, hne, hq, ⟨a, b, rest, hs, ht⟩, hlog⟩ := h
  unfold evalPending runBody
  rw [hs, ht, hst]
  simp only [List.getElem?_cons_succ, List.set_cons_succ]
  cases hj : rest[j]? with
  | none => exact ⟨hst, hne, hq, ⟨a, b, rest, hs, ht⟩, hlog⟩
  | some sub =>
      dsimp only
      have hjl : j < rest.length := by
        by_contra hcon
        rw [List.getElem?_eq_none (Nat.le_of_not_lt hcon)] at hj
        exact absurd hj (by simp)
      cases hpa : sub.pending && sub.active
      · simp only [Bool.false_eq_true, if_false]
        exact ⟨hst, hne, hq, ⟨a, b, rest, hs, ht⟩, hlog⟩
      · simp only [if_true, List.getElem?_set_self hjl]
        cases hdec : objectIs sub.slot s.store.value
        · simp only [hdec, Bool.not_false, if_true]
          refine ⟨rfl, hne, hq, ⟨a, b, _, rfl, rfl⟩, ?_⟩
          rw [projLog_append_ne _ _ _ (by omega),
            projLog_append_ne _ _ _ (by omega), hlog]
        · simp only [hdec, Bool.not_true, Bool.false_eq_true, if_false]
          exact ⟨rfl, hne, hq, ⟨a, b, _, rfl, rfl⟩, hlog⟩

theorem simR_drain_shift :
    ∀ (m c : Nat) {s t : Sys}, simR s t →
    simR (drainIdx (List.range' (c + 1) m) s)
         (drainIdx (List.range' (c + 2) m) t)
  | 0, c, s, t, h => h
  | m + 1, c, s, t, h => by
      rw [List.range'_succ, List.range'_succ, drainIdx, drainIdx]
      exact simR_drain_shift m (c + 1) (simR_evalPending_shift c h)

theorem simR_flush {s t : Sys} (h : simR s t) :
    simR (flushOp s) (flushOp t) := by
  obtain ⟨hst, hne, hq, ⟨a, b, rest, hs, ht⟩, hlog⟩ := h
  unfold flushOp
  rw [hq]
  cases hqq : s.queued
  · simp only [Bool.false_eq_true, if_false]
    exact ⟨hst, hne, hq, ⟨a, b, rest, hs, ht⟩, hlog⟩
  · have hls : s.subs.length = rest.length + 1 := by rw [hs]; rfl
    have hlt : t.subs.length = rest.length + 2 := by rw [ht]; rfl
    simp only [if_true, hls, hlt]
    have h0 : simR { s with needsEnqueue := true, queued := false }
        { t with needsEnqueue := true, queued := false } :=
      ⟨hst, rfl, rfl, ⟨a, b, rest, hs, ht⟩, hlog⟩
    have h1 := simR_evalPending_t_one (simR_evalPending_zero h0)
    have h2 := simR_drain_shift rest.length 0 h1
    rw [show rest.length + 1 + 1 = rest.length + 2 from rfl,
      List.range_eq_range', List.range_eq_range',
      List.range'_succ, List.range'_succ, List.range'_succ,
      drainIdx, drainIdx, drainIdx]
    exact h2

theorem simR_runOp (op : SysOp) {s t : Sys} (h : simR s t) :
    simR (runOp op s) (runOp op t) := by
  cases op with
  | set setter => exact simR_rootSetOp setter h
  | selSet path setter => exact simR_selSetOp path setter h
  | subscribe => exact simR_subscribe h
  | flush => exact simR_flush h

theorem simR_runOps :
    ∀ (ops : List SysOp) {s t : Sys}, simR s t →
    simR (runOps ops s) (runOps ops t)
  | [], _, _, h => h
  | op :: rest, s, t, h => by
      rw [runOps, runOps]
      exact simR_runOps rest (simR_runOp op h)

theorem subscribeOp_one (st : RootStore) (A : Subscriber) (nE q : Bool)
    (lg : List (Nat × SVal)) (w : Nat) :
    subscribeOp { store := st, subs := [A], needsEnqueue := nE, queued := q,
                  log := lg, warnings := w }
      = { store := st,
          subs := [A, ⟨if objectIs undefV st.value then undefV else st.value,
                      true, false⟩],
          needsEnqueue := nE, queued := q,
          log := lg ++ (if objectIs undefV st.value then []
            else [(1, st.value)]),
          warnings := w } := by
  unfold subscribeOp runBody
  simp only [List.getElem?_concat_length]
  cases h : objectIs undefV st.value
  · simp only [h, Bool.not_false, if_true, Bool.false_eq_true, if_false]
    rw [show ([A] ++ [(⟨undefV, true, false⟩ : Subscriber)]).set
          [A].length ⟨st.value, true, false⟩
        = [A] ++ [(⟨st.value, true, false⟩ : Subscriber)] from
        set_append_length [A] _ _]
    rfl
  · simp only [h, Bool.not_true, Bool.false_eq_true, if_false, if_true]
    simp

theorem simR_init (v : SVal) (fresh : Nat) :
    simR (subscribedSys v fresh) (subscribeOp (subscribedSys v fresh)) := by
  rw [subscribedSys_spec v fresh, subscribeOp_one]
  show simR _ _
  refine ⟨rfl, rfl, rfl, ⟨_, _, [], rfl, rfl⟩, ?_⟩
  cases h : objectIs undefV (mkStore v fresh).value
  · simp only [h, Bool.false_eq_true, if_false]
    rw [projLog_append_ne _ _ _ (by omega)]
  · simp only [h, if_true, List.append_nil]

/-- C8.  Every `subscribe` call owns an independent previous-value slot:
adding a second subscriber changes nothing the first subscriber can
observe — under any operation sequence the first subscriber's logged
invocations and its whole subscriber record (slot included) are
identical with or without the second subscriber — and each body
evaluation fires, and updates its own slot, exactly when the store's
value differs (`Object.is`) from the value that subscriber itself last
observed. -/
theorem claim_C8 (v : SVal) (fresh : Nat) (ops : List SysOp) (i : Nat)
    (s : Sys) :
    projLog (runOps ops (subscribeOp (subscribedSys v fresh))).log
      = projLog (runOps ops (subscribedSys v fresh)).log ∧
    (runOps ops (subscribeOp (subscribedSys v fresh))).subs.head?
      = (runOps ops (subscribedSys v fresh)).subs.head? ∧
    (runBody i s).log = (match s.subs[i]? with
      | none => s.log
      | some sub =>
          if objectIs sub.slot s.store.value then s.log
          else s.log ++ [(i, s.store.value)]) ∧
    (runBody i s).subs = (match s.subs[i]? with
      | none => s.subs
      | some sub =>
          if objectIs sub.slot s.store.value then s.subs
          else s.subs.set i { sub with slot := s.store.value }) := by
  obtain ⟨hst, hne, hq, ⟨a, b, rest, hs, ht⟩, hlog⟩ :=
    simR_runOps ops (simR_init v fresh)
  refine ⟨hlog, by rw [hs, ht]; rfl, ?_, ?_⟩
  · unfold runBody
    cases s.subs[i]? with
    | none => rfl
    | some sub =>
        dsimp only
        cases hdec : objectIs sub.slot s.store.value <;> simp [hdec]
  · unfold runBody
    cases s.subs[i]? with
    | none => rfl
    | some sub =>
        dsimp only
        cases hdec : objectIs sub.slot s.store.value <;> simp [hdec]
